import Mathlib

/-!
# secpad: `src/static/js/crypto.js`

A shallow embedding of the key-management wrapper around sodium.js and the
properties of it that the specification states.

Modelling conventions.

* JavaScript values crossing the interface are `Val`: `undefined`, `null`,
  strings, and object literals of the shape `{key: …, nonce: …}`.  Objects are
  treated as immutable values (the module never mutates an entry in place).
* `global._symkeys` is an ordinary JavaScript object used as a map; `Registry`
  keeps its own properties and its prototype, and `Registry.has`,
  `Registry.get`, `Registry.set` follow the `in` operator, `[[Get]]` and
  `[[Set]]` of an ordinary object (inherited members of `Object.prototype`
  included).
* sodium.js is external: `Sodium` is a parameter.  Its random primitives take
  the position in the entropy stream as an argument; the position is carried
  in `World.entropy`.
* A JavaScript call is a function `World → Except Err α × World`: the world
  after a `throw` is the world reached when the exception left the call.
* `console.log` lines are omitted (no effect on the state or on results).
-/

namespace Secpad

/-! ## Values -/

/-- JavaScript values accepted and returned by the interface. `obj k n` is the
object literal `{key: k, nonce: n}`. -/
inductive Val where
  | undefined
  | null
  | str (s : String)
  | obj (key nonce : Val)
  deriving DecidableEq, Repr

/-- What a property read on the registry object yields: a value, or one of the
built-in objects reachable through `Object.prototype` (named by the property
under which it is found). -/
inductive Slot where
  | val (v : Val)
  | native (name : String)
  deriving DecidableEq, Repr

/-- Exceptions: a `TypeError` of the language (property read on `null` or
`undefined`, a primitive handed something that is not a string), or the error of
the sodium primitive that rejected its input. -/
inductive Err where
  | typeError
  | base64Error
  | sealError
  | unsealError
  | secretboxError
  | authenticationError
  deriving DecidableEq, Repr

deriving instance DecidableEq for Except

/-- ToPropertyKey on the values of `Val`. -/
def toPropertyKey : Val → String
  | .undefined => "undefined"
  | .null => "null"
  | .str s => s
  | .obj _ _ => "[object Object]"

/-- The test `v != null` (loose inequality: false for `null` and `undefined`). -/
def Val.neNull : Val → Bool
  | .undefined => false
  | .null => false
  | _ => true

/-! ## The registry object -/

/-- Property names every object inherits from `Object.prototype`. -/
def objectPrototypeNames : List String :=
  ["constructor", "__defineGetter__", "__defineSetter__", "hasOwnProperty",
   "__lookupGetter__", "__lookupSetter__", "isPrototypeOf", "propertyIsEnumerable",
   "toString", "valueOf", "__proto__", "toLocaleString"]

/-- Prototype of the registry object: `Object.prototype` (that of `{}`), `null`,
or an object literal `{key, nonce}` (itself inheriting from `Object.prototype`);
the latter two arise only through an assignment to `__proto__`. -/
inductive Proto where
  | objectPrototype
  | null
  | object (key nonce : Val)
  deriving DecidableEq, Repr

/-- The object `global._symkeys`: own properties (most recent binding first)
and prototype. -/
structure Registry where
  own : List (String × Val)
  proto : Proto
  deriving DecidableEq, Repr

/-- The object literal `{}`. -/
def Registry.empty : Registry := ⟨[], .objectPrototype⟩

/-- Own property lookup. -/
def Registry.getOwn (r : Registry) (k : String) : Option Val :=
  r.own.lookup k

/-- Whether the prototype chain has property `k`. -/
def Proto.has : Proto → String → Bool
  | .objectPrototype, k => decide (k ∈ objectPrototypeNames)
  | .null, _ => false
  | .object _ _, k => k == "key" || k == "nonce" || decide (k ∈ objectPrototypeNames)

/-- The test `k in r`. -/
def Registry.has (r : Registry) (k : String) : Bool :=
  (r.getOwn k).isSome || r.proto.has k

/-- Property read through the prototype chain; `__proto__` is the accessor of
`Object.prototype`, whose getter returns the prototype of the receiver. -/
def Proto.get : Proto → String → Slot
  | .objectPrototype, k =>
      if k ∈ objectPrototypeNames then .native k else .val .undefined
  | .null, _ => .val .undefined
  | .object a b, k =>
      if k = "key" then .val a
      else if k = "nonce" then .val b
      else if k = "__proto__" then .val (.obj a b)
      else if k ∈ objectPrototypeNames then .native k
      else .val .undefined

/-- The read `r[k]`. -/
def Registry.get (r : Registry) (k : String) : Slot :=
  match r.getOwn k with
  | some v => .val v
  | none => r.proto.get k

/-- The assignment `r[k] = v`. An own property is overwritten. Otherwise, when
`k` is `__proto__` and the accessor of `Object.prototype` is on the chain, its
setter runs: an object or `null` becomes the prototype, anything else is
ignored. In every other case an own property is created. -/
def Registry.set (r : Registry) (k : String) (v : Val) : Registry :=
  match r.getOwn k with
  | some _ => { r with own := (k, v) :: r.own }
  | none =>
      if k = "__proto__" ∧ r.proto ≠ .null then
        match v with
        | .obj a b => { r with proto := .object a b }
        | .null => { r with proto := .null }
        | _ => r
      else { r with own := (k, v) :: r.own }

/-! ## Process-wide state -/

/-- The cached identity `global._keys = {pk, sk}`, both base64 strings. -/
structure Keys where
  pk : String
  sk : String
  deriving DecidableEq, Repr

/-- The three properties the module keeps on `global`. An absent `_pad` reads
as `undefined`. -/
structure Global where
  _keys : Option Keys
  _symkeys : Option Registry
  _pad : Val
  deriving DecidableEq, Repr

/-- State at module load: nothing defined on `global`. -/
def Global.fresh : Global := ⟨none, none, .undefined⟩

/-- The process state together with the position in the entropy stream. -/
structure World where
  global : Global
  entropy : Nat
  deriving DecidableEq, Repr

/-- A fresh process whose entropy stream starts at `seed`. -/
def World.fresh (seed : Nat) : World := ⟨Global.fresh, seed⟩

/-! ## The primitive provider -/

/-- The members of sodium.js the module uses. `none` is a thrown exception.
Random primitives (`crypto_box_keypair`, `randombytes_buf`, and `crypto_box_seal`,
which draws an ephemeral keypair) take the entropy position first.
`crypto_secretbox_easy` takes the message as text and `crypto_secretbox_open_easy`
returns text (output format `"text"`); the output format `"base64"` is
`to_base64` applied to the result. -/
structure Sodium (Bytes : Type) where
  length : Bytes → Nat
  crypto_secretbox_NONCEBYTES : Nat
  crypto_secretbox_KEYBYTES : Nat
  crypto_box_keypair : Nat → Bytes × Bytes
  randombytes_buf : Nat → Nat → Bytes
  to_base64 : Bytes → String
  from_base64 : String → Option Bytes
  crypto_box_seal : Nat → Bytes → Bytes → Option Bytes
  crypto_box_seal_open : Bytes → Bytes → Bytes → Option Bytes
  crypto_secretbox_easy : String → Bytes → Bytes → Option Bytes
  crypto_secretbox_open_easy : Bytes → Bytes → Bytes → Option String

/-! ## Calls -/

/-- A call: from a world to a returned value or a thrown exception, and the
world left behind. -/
def JS (α : Type) : Type := World → Except Err α × World

/-- Return. -/
def JS.pure {α : Type} (a : α) : JS α := fun w => (.ok a, w)

/-- Sequencing: an exception ends the call and keeps the world reached. -/
def JS.bind {α β : Type} (m : JS α) (f : α → JS β) : JS β := fun w =>
  match m w with
  | (.ok a, w') => f a w'
  | (.error e, w') => (.error e, w')

instance : Monad JS where
  pure := JS.pure
  bind := JS.bind

/-- The statement `throw`. -/
def JS.throw {α : Type} (e : Err) : JS α := fun w => (.error e, w)

/-- Lift the result of a primitive, throwing `e` when it rejected its input. -/
def JS.ofOption {α : Type} (e : Err) : Option α → JS α
  | some a => JS.pure a
  | none => JS.throw e

/-- Read `global`. -/
def JS.getGlobal : JS Global := fun w => (.ok w.global, w)

/-- Update `global`. -/
def JS.modifyGlobal (f : Global → Global) : JS Unit := fun w =>
  (.ok (), { w with global := f w.global })

/-- Take the next position of the entropy stream. -/
def JS.draw : JS Nat := fun w => (.ok w.entropy, { w with entropy := w.entropy + 1 })

section Module

variable {Bytes : Type} (S : Sodium Bytes)

/-- The call `sodium.from_base64(v)`: a `TypeError` unless `v` is a string. -/
def from_base64 : Val → JS Bytes
  | .str s => JS.ofOption .base64Error (S.from_base64 s)
  | _ => JS.throw .typeError

/-- The read `x.key`: a `TypeError` on `null` and `undefined`, `undefined` on
anything that has no such property. -/
def Slot.key : Slot → JS Val
  | .val (.obj k _) => JS.pure k
  | .val .null => JS.throw .typeError
  | .val .undefined => JS.throw .typeError
  | _ => JS.pure .undefined

/-- The read `x.nonce`. -/
def Slot.nonce : Slot → JS Val
  | .val (.obj _ n) => JS.pure n
  | .val .null => JS.throw .typeError
  | .val .undefined => JS.throw .typeError
  | _ => JS.pure .undefined

/-- Function `get_keys` of the source. -/
def get_keys : JS Keys := do
  let g ← JS.getGlobal
  match g._keys with
  | some k => pure k
  | none =>
    let t ← JS.draw
    let trpl := S.crypto_box_keypair t
    let k : Keys := { pk := S.to_base64 trpl.1, sk := S.to_base64 trpl.2 }
    JS.modifyGlobal (fun g => { g with _keys := some k })
    pure k

/-- Function `exports.publickey`. -/
def publickey : JS Val := do
  let k ← get_keys S
  pure (.str k.pk)

/-- Function `_create_symkeys_var`; returns the registry object for convenience. -/
def _create_symkeys_var : JS Registry := do
  let g ← JS.getGlobal
  match g._symkeys with
  | some r => pure r
  | none =>
    JS.modifyGlobal (fun g => { g with _symkeys := some Registry.empty })
    pure Registry.empty

/-- Function `_get_pad`. -/
def _get_pad (padId : Val) : JS Val := do
  if padId.neNull then
    JS.modifyGlobal (fun g => { g with _pad := padId })
  let g ← JS.getGlobal
  pure g._pad

/-- Function `encrypt_asymmetrical`. -/
def encrypt_asymmetrical (msg : Bytes) (publicKey : Val) : JS Val := do
  let pk ← from_base64 S publicKey
  let t ← JS.draw
  let c ← JS.ofOption .sealError (S.crypto_box_seal t msg pk)
  pure (.str (S.to_base64 c))

/-- Function `decrypt_asymmetrical`. -/
def decrypt_asymmetrical (msg : Val) : JS Bytes := do
  let _k ← get_keys S
  let c ← from_base64 S msg
  let pk ← from_base64 S (.str _k.pk)
  let sk ← from_base64 S (.str _k.sk)
  JS.ofOption .unsealError (S.crypto_box_seal_open c pk sk)

/-- Function `get_symmetric_key`. -/
def get_symmetric_key (padId : Val) : JS Slot := do
  let padId ← _get_pad padId
  let r ← _create_symkeys_var
  let p := toPropertyKey padId
  if r.has p then
    pure (r.get p)
  else
    let t ← JS.draw
    let nonce := S.to_base64 (S.randombytes_buf t S.crypto_secretbox_NONCEBYTES)
    let t ← JS.draw
    let key := S.randombytes_buf t S.crypto_secretbox_KEYBYTES
    let ks ← get_keys S
    let sealed ← encrypt_asymmetrical S key (.str ks.pk)
    let r := r.set p (.obj sealed (.str nonce))
    JS.modifyGlobal (fun g => { g with _symkeys := some r })
    pure (r.get p)

/-- Function `exports.prepare_symmkey`. A call with one argument is the call
with `recipient_pk = undefined`. -/
def prepare_symmkey (padId recipient_pk : Val) : JS Val := do
  let (padId, recipient_pk) :=
    if recipient_pk = .undefined then (Val.null, padId) else (padId, recipient_pk)
  let padId ← _get_pad padId
  let e ← get_symmetric_key S padId
  let k ← e.key
  let raw ← decrypt_asymmetrical S k
  let key ← encrypt_asymmetrical S raw recipient_pk
  let e ← get_symmetric_key S padId
  let nonce ← e.nonce
  pure (.obj key nonce)

/-- Function `exports.store_symmkey`. -/
def store_symmkey (padId encrypted_key : Val) : JS Val := do
  let (padId, encrypted_key) :=
    if encrypted_key = .undefined then (Val.null, padId) else (padId, encrypted_key)
  let padId ← _get_pad padId
  let r ← _create_symkeys_var
  JS.modifyGlobal (fun g => { g with _symkeys := some (r.set (toPropertyKey padId) encrypted_key) })
  pure .undefined

/-- The call `sodium.crypto_secretbox_easy(msg, nonce, key, "base64")` on
already evaluated arguments. -/
def crypto_secretbox_easy (msg : Val) (nonce key : Bytes) : JS Val :=
  match msg with
  | .str m => do
    let c ← JS.ofOption .secretboxError (S.crypto_secretbox_easy m nonce key)
    pure (.str (S.to_base64 c))
  | _ => JS.throw .typeError

/-- Function `exports.encrypt`. -/
def encrypt (padId msg : Val) : JS Val := do
  let (padId, msg) := if msg = .undefined then (Val.null, padId) else (padId, msg)
  let padId ← _get_pad padId
  let sk ← get_symmetric_key S padId
  let n ← sk.nonce
  let nonce ← from_base64 S n
  let k ← sk.key
  let key ← decrypt_asymmetrical S k
  crypto_secretbox_easy S msg nonce key

/-- Function `exports.decrypt`. -/
def decrypt (padId cypher : Val) : JS Val := do
  let (padId, cypher) := if cypher = .undefined then (Val.null, padId) else (padId, cypher)
  let padId ← _get_pad padId
  let sk ← get_symmetric_key S padId
  let c ← from_base64 S cypher
  let n ← sk.nonce
  let nonce ← from_base64 S n
  let k ← sk.key
  let key ← decrypt_asymmetrical S k
  let m ← JS.ofOption .authenticationError (S.crypto_secretbox_open_easy c nonce key)
  pure (.str m)

end Module

/-! ## A small executable provider -/

/-- Byte arrays of the toy provider. -/
abbrev ToyBytes : Type := List Char

/-- The letter the toy provider derives from an entropy position. -/
def toyChar (t : Nat) : Char := Char.ofNat (97 + t % 26)

/-- A provider small enough to evaluate: base64 is the identity on characters,
a public key is `P` followed by a letter and its private key `S` followed by the
same letter, a sealed box records the letter of the public key, and a secret box
records nonce and key in front of the text. -/
def toySodium : Sodium ToyBytes where
  length := List.length
  crypto_secretbox_NONCEBYTES := 24
  crypto_secretbox_KEYBYTES := 32
  crypto_box_keypair := fun t => (['P', toyChar t], ['S', toyChar t])
  randombytes_buf := fun t n => List.replicate n (toyChar t)
  to_base64 := String.mk
  from_base64 := fun s => some s.data
  crypto_box_seal := fun t msg pk =>
    match pk with
    | ['P', x] => some ('#' :: x :: toyChar t :: msg)
    | _ => none
  crypto_box_seal_open := fun c pk sk =>
    match c, pk, sk with
    | '#' :: x :: _ :: msg, ['P', y], ['S', z] => if x = y ∧ y = z then some msg else none
    | _, _, _ => none
  crypto_secretbox_easy := fun m n k =>
    if n.length = 24 ∧ k.length = 32 then some ('@' :: (n ++ k ++ m.data)) else none
  crypto_secretbox_open_easy := fun c n k =>
    match c with
    | '@' :: rest =>
        if n.length = 24 ∧ k.length = 32 ∧ rest.take 56 = n ++ k then
          some (String.mk (rest.drop 56))
        else none
    | _ => none

/-! ## Assumptions on the provider -/

/-- The identity `{pk, sk}` cached after the keypair generator ran at entropy
position `t`. -/
def Sodium.keysAt {Bytes : Type} (S : Sodium Bytes) (t : Nat) : Keys :=
  { pk := S.to_base64 (S.crypto_box_keypair t).1, sk := S.to_base64 (S.crypto_box_keypair t).2 }

/-- The inverse laws of the provider: base64 decoding inverts encoding; random
buffers have the requested length; sealing for a generated public key succeeds
and opening with the matching keypair returns the message; the secret box
accepts a nonce and a key of the prescribed sizes and opening under the same
nonce and key returns the text. -/
structure Sodium.Lawful {Bytes : Type} (S : Sodium Bytes) : Prop where
  base64 : ∀ b, S.from_base64 (S.to_base64 b) = some b
  random_length : ∀ t n, S.length (S.randombytes_buf t n) = n
  seal_total : ∀ t e msg, ∃ c, S.crypto_box_seal e msg (S.crypto_box_keypair t).1 = some c
  seal_open : ∀ t e msg c, S.crypto_box_seal e msg (S.crypto_box_keypair t).1 = some c →
    S.crypto_box_seal_open c (S.crypto_box_keypair t).1 (S.crypto_box_keypair t).2 = some msg
  secretbox_total : ∀ m n k, S.length n = S.crypto_secretbox_NONCEBYTES →
    S.length k = S.crypto_secretbox_KEYBYTES → ∃ c, S.crypto_secretbox_easy m n k = some c
  secretbox_open : ∀ m n k c, S.crypto_secretbox_easy m n k = some c →
    S.crypto_secretbox_open_easy c n k = some m

/-- The cached identity, when there is one, came from the keypair generator. -/
def IdentityOk {Bytes : Type} (S : Sodium Bytes) (g : Global) : Prop :=
  ∀ k, g._keys = some k → ∃ t, k = S.keysAt t

/-- The identifier a call works on: the argument when it is given (`!= null`),
else the active-pad pointer. -/
def resolve (padId : Val) (g : Global) : Val :=
  if padId.neNull then padId else g._pad

/-- The world with the active-pad pointer set to `x`. -/
def World.setPad (w : World) (x : Val) : World :=
  { w with global := { w.global with _pad := x } }

/-- The local identity opens the wrapped key `k` to the raw key `raw`: an
identity is cached, `k` is a base64 string, and `crypto_box_seal_open` accepts
it under the cached keypair. -/
def Opens {Bytes : Type} (S : Sodium Bytes) (g : Global) (k : Val) (raw : Bytes) : Prop :=
  ∃ ks s kb pkb skb, g._keys = some ks ∧ k = .str s ∧ S.from_base64 s = some kb ∧
    S.from_base64 ks.pk = some pkb ∧ S.from_base64 ks.sk = some skb ∧
    S.crypto_box_seal_open kb pkb skb = some raw

/-- Document `d` has no registry entry: the test `d in global._symkeys` of
`get_symmetric_key` is false (on `{}` when the registry object does not exist
yet). -/
def Absent (g : Global) (d : String) : Prop :=
  (g._symkeys.getD Registry.empty).has d = false

instance (g : Global) (d : String) : Decidable (Absent g d) := by
  unfold Absent; infer_instance

/-- Document `d` has a self-wrapped entry with raw key `raw` and nonce bytes
`nb`: the entry read under `d` is `{key, nonce}` where `key` is the base64 form
of `raw` sealed for the public key of the cached, generated identity, `nonce` is
the base64 form of `nb`, and both have the sizes of the secret box. -/
def SelfWrappedWith {Bytes : Type} (S : Sodium Bytes) (g : Global) (d : String)
    (raw nb : Bytes) : Prop :=
  ∃ t e sealed r, g._keys = some (S.keysAt t) ∧ g._symkeys = some r ∧
    r.get d = .val (.obj (.str (S.to_base64 sealed)) (.str (S.to_base64 nb))) ∧
    S.crypto_box_seal e raw (S.crypto_box_keypair t).1 = some sealed ∧
    S.length raw = S.crypto_secretbox_KEYBYTES ∧
    S.length nb = S.crypto_secretbox_NONCEBYTES

/-- Document `d` has a self-wrapped entry. -/
def SelfWrapped {Bytes : Type} (S : Sodium Bytes) (g : Global) (d : String) : Prop :=
  ∃ raw nb, SelfWrappedWith S g d raw nb

/-- The world a fresh process (entropy position 0) reaches with the toy provider
after `encrypt("pad1", "hello")`: identity `Pc`/`Sc`, one self-wrapped entry for
`pad1`, pointer on `pad1`. -/
def toyWorld : World :=
  { global :=
      { _keys := some { pk := "Pc", sk := "Sc" },
        _symkeys := some
          { own := [("pad1", .obj (.str "#cdbbbbbbbbbbbbbbbbbbbbbbbbbbbbbbbb")
                                  (.str "aaaaaaaaaaaaaaaaaaaaaaaa"))],
            proto := .objectPrototype },
        _pad := .str "pad1" },
    entropy := 4 }

/-- The identifier argument of a two-argument entry point after its first lines:
a call whose second argument is `undefined` (a call with one argument) has its
only argument taken as the payload and no identifier. -/
def effectiveId (padId second : Val) : Val :=
  if second = .undefined then .null else padId

/-- The payload of a two-argument entry point after its first lines. -/
def effectivePayload (padId second : Val) : Val :=
  if second = .undefined then padId else second

/-- A call of the exported interface. JavaScript does not distinguish a call
with one argument from the call whose second argument is `undefined`; the latter
stands for both. -/
inductive Call where
  | publickey
  | prepare_symmkey (padId recipient_pk : Val)
  | store_symmkey (padId encrypted_key : Val)
  | encrypt (padId msg : Val)
  | decrypt (padId cypher : Val)
  deriving DecidableEq, Repr

/-- Run a call. -/
def Call.run {Bytes : Type} (S : Sodium Bytes) : Call → JS Val
  | .publickey => Secpad.publickey S
  | .prepare_symmkey a b => Secpad.prepare_symmkey S a b
  | .store_symmkey a b => Secpad.store_symmkey a b
  | .encrypt a b => Secpad.encrypt S a b
  | .decrypt a b => Secpad.decrypt S a b

/-- Whether the call is a `store_symmkey`. -/
def Call.isStore : Call → Bool
  | .store_symmkey _ _ => true
  | _ => false

/-- The identifier a call works on in the state `g`. -/
def Call.resolved : Call → Global → Val
  | .publickey, g => g._pad
  | .prepare_symmkey a b, g => resolve (effectiveId a b) g
  | .store_symmkey a b, g => resolve (effectiveId a b) g
  | .encrypt a b, g => resolve (effectiveId a b) g
  | .decrypt a b, g => resolve (effectiveId a b) g

/-- The explicit identifier a call is given, in the words of the specification:
the identifier argument of a two-argument call when it is neither `null` nor
`undefined`; none for a call that omits the identifier and for `publickey`. -/
def Call.explicitId : Call → Option Val
  | .publickey => none
  | .prepare_symmkey a b => if b = .undefined then none else if a.neNull then some a else none
  | .store_symmkey a b => if b = .undefined then none else if a.neNull then some a else none
  | .encrypt a b => if b = .undefined then none else if a.neNull then some a else none
  | .decrypt a b => if b = .undefined then none else if a.neNull then some a else none

/-- Run a sequence of calls one after the other (a caller that catches
exceptions and goes on); the world reached. -/
def runCalls {Bytes : Type} (S : Sodium Bytes) : List Call → World → World
  | [], w => w
  | c :: cs, w => runCalls S cs (c.run S w).2

/-- The pointer the specification prescribes after a sequence of calls started
with pointer `p0`: the explicit identifier of the most recent call that was
given one, and `p0` when no call was given one. -/
def specPointer (cs : List Call) (p0 : Val) : Val :=
  (cs.reverse.findSome? Call.explicitId).getD p0

/-! ## What a call may leave behind -/

/-- The identity after a call: as before, or generated when none was cached. -/
def KeysGrow {Bytes : Type} (S : Sodium Bytes) (o o' : Option Keys) : Prop :=
  o' = o ∨ (o = none ∧ ∃ t, o' = some (S.keysAt t))

/-- The registry after a call that works on the property name `key`: as before,
or created empty, or (when `key` was not `in` it) extended by one assignment
under `key`. -/
def RegistryGrows (key : String) (o o' : Option Registry) : Prop :=
  o' = o ∨ (o = none ∧ o' = some Registry.empty) ∨
    ((o.getD Registry.empty).has key = false ∧
      ∃ v, o' = some ((o.getD Registry.empty).set key v))

/-- Lazy initialisation for the identifier `x`: the world `w'` differs from `w`
at most by a generated identity, a created registry or a created entry for `x`,
the entropy consumed, and the pointer, which is `x`. -/
def LazyInit {Bytes : Type} (S : Sodium Bytes) (x : Val) (w w' : World) : Prop :=
  KeysGrow S w.global._keys w'.global._keys ∧
  RegistryGrows (toPropertyKey x) w.global._symkeys w'.global._symkeys ∧
  w'.global._pad = x

/-- Every run of `m`, returning or throwing, relates the world before to the
world after by `R`. -/
def Steps {α : Type} (R : World → World → Prop) (m : JS α) : Prop :=
  ∀ w, R w (m w).2

/-- Lazy initialisation for `x` from worlds whose pointer is already `x`. -/
def LazyFrom {Bytes : Type} (S : Sodium Bytes) (x : Val) (w w' : World) : Prop :=
  w.global._pad = x → LazyInit S x w w'

/-! ## Rejected keys and rejected ciphertexts -/

/-- The identity `get_keys` returns in `w`: the cached one, or the one it
generates at the current entropy position when none is cached. -/
def localKeys {Bytes : Type} (S : Sodium Bytes) (w : World) : Keys :=
  w.global._keys.getD (S.keysAt w.entropy)

/-- The open-sealed primitive rejects the wrapped key `k` under the keypair `ks`:
`k` and both halves of `ks` decode from base64 and `crypto_box_seal_open` throws. -/
def Rejects {Bytes : Type} (S : Sodium Bytes) (ks : Keys) (k : Val) : Prop :=
  ∃ s kb pkb skb, k = .str s ∧ S.from_base64 s = some kb ∧
    S.from_base64 ks.pk = some pkb ∧ S.from_base64 ks.sk = some skb ∧
    S.crypto_box_seal_open kb pkb skb = none

/-- The authenticated-decrypt primitive rejects whatever is not a secret box made
under the given nonce and key. -/
def Sodium.RejectsForgeries {Bytes : Type} (S : Sodium Bytes) : Prop :=
  ∀ c n k, (∀ m, S.crypto_secretbox_easy m n k ≠ some c) →
    S.crypto_secretbox_open_easy c n k = none

/-- A world of the toy provider whose entry for `pad1` was sealed for another
identity (letter `z`) than the local one (letter `c`). -/
def toyForeignWorld : World :=
  { global :=
      { _keys := some { pk := "Pc", sk := "Sc" },
        _symkeys := some
          { own := [("pad1", .obj (.str "#zdbbbbbbbbbbbbbbbbbbbbbbbbbbbbbbbb")
                                  (.str "aaaaaaaaaaaaaaaaaaaaaaaa"))],
            proto := .objectPrototype },
        _pad := .undefined },
    entropy := 4 }

/-- The call is a `store_symmkey` that assigns over what is read under `d`: it
resolves to `d`, or it resolves to `__proto__` (the assignment then replaces the
prototype of the registry object) while `d` is not an own property of the
registry. -/
def Call.storesOver (d : String) (c : Call) (g : Global) : Prop :=
  c.isStore = true ∧
    (toPropertyKey (c.resolved g) = d ∨
      (toPropertyKey (c.resolved g) = "__proto__" ∧
        ∀ r, g._symkeys = some r → r.getOwn d = none))

/-- No call of the sequence, run from `w` one after the other, is a
`store_symmkey` over `d`. -/
def NoStoreOver {Bytes : Type} (S : Sodium Bytes) (d : String) : List Call → World → Prop
  | [], _ => True
  | c :: cs, w => ¬ c.storesOver d w.global ∧ NoStoreOver S d cs (c.run S w).2

/-- The computation neither reads nor writes the pointer: run from a world
whose pointer has been set to `v`, it gives the same outcome and the same world
with the pointer set to `v`. -/
def PadFree {α : Type} (m : JS α) : Prop :=
  ∀ w v, m (w.setPad v) = ((m w).1, (m w).2.setPad v)

/-! # Proofs -/

theorem toySodium_lawful : toySodium.Lawful where
  base64 := fun _ => rfl
  random_length := fun t n => by simp [toySodium]
  seal_total := fun t e msg => ⟨_, rfl⟩
  seal_open := fun t e msg c h => by
    simp only [toySodium, Option.some.injEq] at h
    subst h
    simp [toySodium]
  secretbox_total := fun m n k hn hk => by
    simp only [toySodium] at hn hk
    simp [toySodium, hn, hk]
  secretbox_open := fun m n k c h => by
    simp only [toySodium] at h
    split at h
    · next hl =>
      simp only [Option.some.injEq] at h
      subst h
      have h56 : (n ++ k).length = 56 := by simp [hl.1, hl.2]
      have h1 : List.take 56 (n ++ k ++ m.data) = n ++ k := by
        rw [← h56, List.take_left]
      have h2 : List.drop 56 (n ++ k ++ m.data) = m.data := by
        rw [← h56, List.drop_left]
      simp only [toySodium]
      rw [if_pos ⟨hl.1, hl.2, h1⟩, h2]
    · exact absurd h (by simp)

/-! ## Running the combinators -/

@[simp] theorem run_pure {α : Type} (a : α) (w : World) :
    (Pure.pure a : JS α) w = (.ok a, w) := rfl

@[simp] theorem run_JS_pure {α : Type} (a : α) (w : World) :
    (JS.pure a : JS α) w = (.ok a, w) := rfl

@[simp] theorem run_bind {α β : Type} (m : JS α) (f : α → JS β) (w : World) :
    (m >>= f) w = match m w with
      | (.ok a, w') => f a w'
      | (.error e, w') => (.error e, w') := rfl

@[simp] theorem run_throw {α : Type} (e : Err) (w : World) :
    (JS.throw e : JS α) w = (.error e, w) := rfl

@[simp] theorem run_ofOption_some {α : Type} (e : Err) (a : α) (w : World) :
    JS.ofOption e (some a) w = (.ok a, w) := rfl

@[simp] theorem run_ofOption_none {α : Type} (e : Err) (w : World) :
    (JS.ofOption e (none : Option α)) w = (.error e, w) := rfl

@[simp] theorem run_getGlobal (w : World) : JS.getGlobal w = (.ok w.global, w) := rfl

@[simp] theorem run_modifyGlobal (f : Global → Global) (w : World) :
    JS.modifyGlobal f w = (.ok (), { w with global := f w.global }) := rfl

@[simp] theorem run_draw (w : World) :
    JS.draw w = (.ok w.entropy, { w with entropy := w.entropy + 1 }) := rfl

section Lemmas

variable {Bytes : Type} (S : Sodium Bytes)

theorem run_get_pad (padId : Val) (w : World) :
    _get_pad padId w = (.ok (resolve padId w.global), w.setPad (resolve padId w.global)) := by
  unfold _get_pad resolve World.setPad
  cases h : padId.neNull <;> simp [h]

theorem run_get_keys_some (w : World) (k : Keys) (h : w.global._keys = some k) :
    get_keys S w = (.ok k, w) := by
  simp [get_keys, h]

theorem run_get_keys_none (w : World) (h : w.global._keys = none) :
    get_keys S w = (.ok (S.keysAt w.entropy),
      { global := { w.global with _keys := some (S.keysAt w.entropy) },
        entropy := w.entropy + 1 }) := by
  simp [get_keys, h, Sodium.keysAt]

theorem run_get_keys (w : World) :
    get_keys S w = match w.global._keys with
      | some k => (.ok k, w)
      | none => (.ok (S.keysAt w.entropy),
          { global := { w.global with _keys := some (S.keysAt w.entropy) },
            entropy := w.entropy + 1 }) := by
  cases h : w.global._keys with
  | none => exact run_get_keys_none S w h
  | some k => exact run_get_keys_some S w k h

theorem run_create_symkeys_var (w : World) :
    _create_symkeys_var w =
      (.ok (w.global._symkeys.getD Registry.empty),
       { w with global := { w.global with
           _symkeys := some (w.global._symkeys.getD Registry.empty) } }) := by
  unfold _create_symkeys_var
  cases h : w.global._symkeys with
  | none => simp [h]
  | some r =>
    simp only [run_bind, run_getGlobal, h, run_pure, Option.getD_some]
    rw [← h]

/-! ### The registry object -/

theorem Proto.has_proto_of_ne_null (p : Proto) (h : p ≠ .null) : p.has "__proto__" = true := by
  cases p with
  | objectPrototype => decide
  | null => exact absurd rfl h
  | object a b => simp [Proto.has, objectPrototypeNames]

/-- Assigning to a name that is not `in` the object creates an own property. -/
theorem Registry.set_of_not_has (r : Registry) (k : String) (v : Val) (h : r.has k = false) :
    r.set k v = { r with own := (k, v) :: r.own } := by
  unfold Registry.has at h
  simp only [Bool.or_eq_false_iff] at h
  have hown : r.getOwn k = none := by
    cases ho : r.getOwn k with
    | none => rfl
    | some x => rw [ho] at h; exact absurd h.1 (by simp)
  unfold Registry.set
  rw [hown]
  by_cases hk : k = "__proto__" ∧ r.proto ≠ .null
  · have := Proto.has_proto_of_ne_null r.proto hk.2
    rw [← hk.1, h.2] at this
    exact absurd this (by simp)
  · simp only [hk, if_false]

theorem Registry.getOwn_cons_self (r : Registry) (k : String) (v : Val) :
    Registry.getOwn { r with own := (k, v) :: r.own } k = some v := by
  simp [Registry.getOwn, List.lookup]

theorem Registry.has_set_of_not_has (r : Registry) (k : String) (v : Val)
    (h : r.has k = false) : (r.set k v).has k = true := by
  rw [Registry.set_of_not_has r k v h]
  simp [Registry.has, Registry.getOwn_cons_self]

theorem Registry.getOwn_cons_ne (r : Registry) (k d : String) (v : Val) (h : d ≠ k) :
    Registry.getOwn { r with own := (k, v) :: r.own } d = r.getOwn d := by
  have : (d == k) = false := by simpa using h
  simp [Registry.getOwn, List.lookup, this]

/-- Own properties under other names survive an assignment. -/
theorem Registry.getOwn_set_ne (r : Registry) (k d : String) (v : Val) (h : d ≠ k) :
    (r.set k v).getOwn d = r.getOwn d := by
  unfold Registry.set
  split
  · exact Registry.getOwn_cons_ne r k d v h
  · split
    · split <;> rfl
    · exact Registry.getOwn_cons_ne r k d v h

/-- An object assigned under any name is what a read of that name returns. -/
theorem Registry.get_set_obj (r : Registry) (k : String) (a b : Val) :
    (r.set k (.obj a b)).get k = .val (.obj a b) := by
  unfold Registry.set
  split
  · simp [Registry.get, Registry.getOwn_cons_self]
  · next hown =>
    split
    · next hk =>
      obtain ⟨hk1, _⟩ := hk
      subst hk1
      have hown' : Registry.getOwn { r with proto := Proto.object a b } "__proto__" = none := hown
      unfold Registry.get
      rw [hown']
      rfl
    · simp [Registry.get, Registry.getOwn_cons_self]

/-- Away from `__proto__`, an assignment stores the value as an own property and
leaves the prototype alone. -/
theorem Registry.set_of_ne_proto (r : Registry) (k : String) (v : Val) (h : k ≠ "__proto__") :
    (r.set k v).getOwn k = some v ∧ (r.set k v).proto = r.proto := by
  unfold Registry.set
  split
  · exact ⟨Registry.getOwn_cons_self r k v, rfl⟩
  · rw [if_neg (fun hk => h hk.1)]
    exact ⟨Registry.getOwn_cons_self r k v, rfl⟩

/-- A read that returns an object or a string found a property. -/
theorem Registry.has_of_get (r : Registry) (k : String) (v : Val)
    (h : r.get k = .val v) (hv : v ≠ .undefined) : r.has k = true := by
  unfold Registry.get at h
  unfold Registry.has
  cases ho : r.getOwn k with
  | some x => simp
  | none =>
    rw [ho] at h
    simp only [Option.isSome_none, Bool.false_or]
    cases hp : r.proto with
    | objectPrototype =>
      rw [hp] at h
      simp only [Proto.get] at h
      split at h
      · exact absurd h (by simp)
      · simp only [Slot.val.injEq] at h; exact absurd h.symm hv
    | null =>
      rw [hp] at h
      simp only [Proto.get, Slot.val.injEq] at h
      exact absurd h.symm hv
    | object a b =>
      rw [hp] at h
      simp only [Proto.get] at h
      simp only [Proto.has]
      by_cases h1 : k = "key"
      · simp [h1]
      · by_cases h2 : k = "nonce"
        · simp [h2]
        · by_cases h3 : k = "__proto__"
          · simp [h3, objectPrototypeNames]
          · simp only [h1, h2, h3, if_false] at h
            split at h
            · exact absurd h (by simp)
            · simp only [Slot.val.injEq] at h; exact absurd h.symm hv

/-! ### Straight-line runs -/

theorem run_from_base64 (s : String) (b : Bytes) (h : S.from_base64 s = some b) (w : World) :
    from_base64 S (.str s) w = (.ok b, w) := by
  simp [from_base64, h]

theorem run_decrypt_asymmetrical (w : World) (k : Val) (raw : Bytes)
    (h : Opens S w.global k raw) : decrypt_asymmetrical S k w = (.ok raw, w) := by
  obtain ⟨ks, s, kb, pkb, skb, hks, hk, h1, h2, h3, h4⟩ := h
  subst hk
  simp [decrypt_asymmetrical, run_get_keys_some S w ks hks, run_from_base64, h1, h2, h3, h4]

theorem Opens.of_sealed (hS : S.Lawful) (g : Global) (t e : Nat) (raw sealed : Bytes)
    (hk : g._keys = some (S.keysAt t))
    (hs : S.crypto_box_seal e raw (S.crypto_box_keypair t).1 = some sealed) :
    Opens S g (.str (S.to_base64 sealed)) raw :=
  ⟨S.keysAt t, _, sealed, _, _, hk, rfl, hS.base64 _, hS.base64 _, hS.base64 _,
    hS.seal_open t e raw sealed hs⟩

/-- With an entry under the resolved name, `get_symmetric_key` only moves the
pointer and returns what the read yields. -/
theorem run_get_symmetric_key_has (p : Val) (w : World) (r : Registry)
    (hr : w.global._symkeys = some r)
    (hh : r.has (toPropertyKey (resolve p w.global)) = true) :
    get_symmetric_key S p w =
      (.ok (r.get (toPropertyKey (resolve p w.global))), w.setPad (resolve p w.global)) := by
  unfold get_symmetric_key
  simp only [run_bind, run_get_pad, run_create_symkeys_var, World.setPad, hr, Option.getD_some,
    hh, if_true, run_pure]

/-- Resolving an already resolved identifier changes nothing. -/
theorem resolve_setPad (p : Val) (w : World) :
    resolve (resolve p w.global) (w.setPad (resolve p w.global)).global = resolve p w.global := by
  unfold resolve World.setPad
  cases h : p.neNull <;> simp [h]

theorem setPad_setPad (w : World) (x : Val) : (w.setPad x).setPad x = w.setPad x := rfl

/-- Without an entry under the resolved name, `get_symmetric_key` draws a nonce
and a key, seals the key for the local public key, stores the entry and returns
it. -/
theorem run_get_symmetric_key_new (hS : S.Lawful) (p : Val) (w : World)
    (hid : IdentityOk S w.global)
    (habs : Absent w.global (toPropertyKey (resolve p w.global))) :
    ∃ t e sealed,
      S.crypto_box_seal e (S.randombytes_buf (w.entropy + 1) S.crypto_secretbox_KEYBYTES)
        (S.crypto_box_keypair t).1 = some sealed ∧
      (get_symmetric_key S p w).1 =
        .ok (.val (.obj (.str (S.to_base64 sealed))
          (.str (S.to_base64 (S.randombytes_buf w.entropy S.crypto_secretbox_NONCEBYTES))))) ∧
      (get_symmetric_key S p w).2.global._keys = some (S.keysAt t) ∧
      (∀ k, w.global._keys = some k → k = S.keysAt t) ∧
      (get_symmetric_key S p w).2.global._symkeys =
        some ((w.global._symkeys.getD Registry.empty).set
          (toPropertyKey (resolve p w.global))
          (.obj (.str (S.to_base64 sealed))
            (.str (S.to_base64 (S.randombytes_buf w.entropy S.crypto_secretbox_NONCEBYTES))))) ∧
      (get_symmetric_key S p w).2.global._pad = resolve p w.global := by
  unfold Absent at habs
  have hget : ∀ v, ((w.global._symkeys.getD Registry.empty).set
      (toPropertyKey (resolve p w.global)) v).get (toPropertyKey (resolve p w.global))
        = .val v := by
    intro v
    rw [Registry.set_of_not_has _ _ _ habs]
    simp [Registry.get, Registry.getOwn_cons_self]
  cases hk : w.global._keys with
  | none =>
    obtain ⟨sealed, hs⟩ := hS.seal_total (w.entropy + 2) (w.entropy + 3)
      (S.randombytes_buf (w.entropy + 1) S.crypto_secretbox_KEYBYTES)
    have hrun : get_symmetric_key S p w =
        (.ok (.val (.obj (.str (S.to_base64 sealed))
          (.str (S.to_base64 (S.randombytes_buf w.entropy S.crypto_secretbox_NONCEBYTES))))),
         { global := { _keys := some (S.keysAt (w.entropy + 2)),
                       _symkeys := some ((w.global._symkeys.getD Registry.empty).set
                          (toPropertyKey (resolve p w.global))
                          (.obj (.str (S.to_base64 sealed))
                            (.str (S.to_base64
                              (S.randombytes_buf w.entropy S.crypto_secretbox_NONCEBYTES))))),
                       _pad := resolve p w.global },
           entropy := w.entropy + 4 }) := by
      unfold get_symmetric_key
      simp only [run_bind, run_get_pad, run_create_symkeys_var, World.setPad, habs, run_draw,
        Bool.false_eq_true, if_false]
      simp only [run_get_keys, hk]
      simp only [encrypt_asymmetrical, run_bind, run_from_base64 S _ _ (hS.base64 _), run_draw,
        Sodium.keysAt, hs, run_ofOption_some, run_pure, run_modifyGlobal, hget]
    refine ⟨w.entropy + 2, w.entropy + 3, sealed, hs, ?_, ?_, ?_, ?_, ?_⟩
    · rw [hrun]
    · rw [hrun]
    · intro k h; exact absurd h (by simp)
    · rw [hrun]
    · rw [hrun]
  | some k =>
    obtain ⟨t, ht⟩ := hid k hk
    subst ht
    obtain ⟨sealed, hs⟩ := hS.seal_total t (w.entropy + 2)
      (S.randombytes_buf (w.entropy + 1) S.crypto_secretbox_KEYBYTES)
    have hrun : get_symmetric_key S p w =
        (.ok (.val (.obj (.str (S.to_base64 sealed))
          (.str (S.to_base64 (S.randombytes_buf w.entropy S.crypto_secretbox_NONCEBYTES))))),
         { global := { _keys := some (S.keysAt t),
                       _symkeys := some ((w.global._symkeys.getD Registry.empty).set
                          (toPropertyKey (resolve p w.global))
                          (.obj (.str (S.to_base64 sealed))
                            (.str (S.to_base64
                              (S.randombytes_buf w.entropy S.crypto_secretbox_NONCEBYTES))))),
                       _pad := resolve p w.global },
           entropy := w.entropy + 3 }) := by
      unfold get_symmetric_key
      simp only [run_bind, run_get_pad, run_create_symkeys_var, World.setPad, habs, run_draw,
        Bool.false_eq_true, if_false]
      simp only [run_get_keys, hk]
      simp only [encrypt_asymmetrical, run_bind, run_from_base64 S _ _ (hS.base64 _), run_draw,
        Sodium.keysAt, hs, run_ofOption_some, run_pure, run_modifyGlobal, hget]
    refine ⟨t, w.entropy + 2, sealed, hs, ?_, ?_, ?_, ?_, ?_⟩
    · rw [hrun]
    · rw [hrun]
    · intro k h; exact (Option.some.inj h).symm
    · rw [hrun]
    · rw [hrun]

theorem Opens.congr_keys {g g' : Global} {k : Val} {raw : Bytes}
    (h : Opens S g k raw) (hk : g'._keys = g._keys) : Opens S g' k raw := by
  obtain ⟨ks, s, kb, pkb, skb, h0, h1⟩ := h
  exact ⟨ks, s, kb, pkb, skb, hk.trans h0, h1⟩

/-- The entry read for the resolved name, once the pointer has been moved. -/
theorem run_get_symmetric_key_resolved (p : Val) (w : World) (r : Registry)
    (hr : w.global._symkeys = some r)
    (hh : r.has (toPropertyKey (resolve p w.global)) = true) :
    get_symmetric_key S (resolve p w.global) (w.setPad (resolve p w.global)) =
      (.ok (r.get (toPropertyKey (resolve p w.global))), w.setPad (resolve p w.global)) := by
  have h := run_get_symmetric_key_has S (resolve p w.global) (w.setPad (resolve p w.global)) r hr
    (by rw [resolve_setPad]; exact hh)
  rw [resolve_setPad, setPad_setPad] at h
  exact h

/-- With an entry the local identity opens, `encrypt` returns the secret box of
the text under the entry's nonce and the opened key, and only moves the pointer. -/
theorem run_encrypt_has (p : Val) (m : String) (w : World) (r : Registry) (k : Val)
    (ns : String) (nb raw c : Bytes)
    (hr : w.global._symkeys = some r)
    (hget : r.get (toPropertyKey (resolve p w.global)) = .val (.obj k (.str ns)))
    (hn : S.from_base64 ns = some nb)
    (ho : Opens S w.global k raw)
    (hc : S.crypto_secretbox_easy m nb raw = some c) :
    encrypt S p (.str m) w = (.ok (.str (S.to_base64 c)), w.setPad (resolve p w.global)) := by
  have hh := Registry.has_of_get _ _ _ hget (by simp)
  have ho' : Opens S (w.setPad (resolve p w.global)).global k raw := ho.congr_keys S rfl
  unfold encrypt
  simp only [reduceCtorEq, if_false, run_bind, run_get_pad,
    run_get_symmetric_key_resolved S p w r hr hh, hget, Slot.nonce, Slot.key, run_JS_pure,
    run_from_base64 S ns nb hn, run_decrypt_asymmetrical S _ k raw ho', crypto_secretbox_easy,
    hc, run_ofOption_some, run_pure]

/-- With an entry the local identity opens, `decrypt` returns what the secret box
opens to under the entry's nonce and the opened key, and only moves the pointer. -/
theorem run_decrypt_has (p : Val) (cs : String) (w : World) (r : Registry) (k : Val)
    (ns : String) (nb raw c : Bytes) (m : String)
    (hr : w.global._symkeys = some r)
    (hget : r.get (toPropertyKey (resolve p w.global)) = .val (.obj k (.str ns)))
    (hcs : S.from_base64 cs = some c)
    (hn : S.from_base64 ns = some nb)
    (ho : Opens S w.global k raw)
    (hc : S.crypto_secretbox_open_easy c nb raw = some m) :
    decrypt S p (.str cs) w = (.ok (.str m), w.setPad (resolve p w.global)) := by
  have hh := Registry.has_of_get _ _ _ hget (by simp)
  have ho' : Opens S (w.setPad (resolve p w.global)).global k raw := ho.congr_keys S rfl
  unfold decrypt
  simp only [reduceCtorEq, if_false, run_bind, run_get_pad,
    run_get_symmetric_key_resolved S p w r hr hh, hget, Slot.nonce, Slot.key, run_JS_pure,
    run_from_base64 S ns nb hn, run_from_base64 S cs c hcs,
    run_decrypt_asymmetrical S _ k raw ho',
    hc, run_ofOption_some, run_pure]

theorem SelfWrappedWith.opens (hS : S.Lawful) {g : Global} {d : String} {raw nb : Bytes}
    (h : SelfWrappedWith S g d raw nb) :
    ∃ sealed r, g._symkeys = some r ∧
      r.get d = .val (.obj (.str (S.to_base64 sealed)) (.str (S.to_base64 nb))) ∧
      Opens S g (.str (S.to_base64 sealed)) raw := by
  obtain ⟨t, e, sealed, r, hk, hr, hg, hs, _, _⟩ := h
  exact ⟨sealed, r, hr, hg, Opens.of_sealed S hS g t e raw sealed hk hs⟩

/-- On a self-wrapped entry `encrypt` succeeds: it returns the base64 form of
the secret box of the text under the entry's nonce and raw key. -/
theorem encrypt_of_selfWrapped (hS : S.Lawful) (p : Val) (m : String) (w : World)
    (raw nb : Bytes)
    (h : SelfWrappedWith S w.global (toPropertyKey (resolve p w.global)) raw nb) :
    ∃ c, S.crypto_secretbox_easy m nb raw = some c ∧
      encrypt S p (.str m) w = (.ok (.str (S.to_base64 c)), w.setPad (resolve p w.global)) := by
  obtain ⟨sealed, r, hr, hg, ho⟩ := h.opens S hS
  obtain ⟨_, _, _, _, _, _, _, _, hlr, hln⟩ := h
  obtain ⟨c, hc⟩ := hS.secretbox_total m nb raw hln hlr
  exact ⟨c, hc, run_encrypt_has S p m w r _ _ nb raw c hr hg (hS.base64 nb) ho hc⟩

/-- On a self-wrapped entry `decrypt` opens a secret box made under the entry's
nonce and raw key. -/
theorem decrypt_of_selfWrapped (hS : S.Lawful) (p : Val) (m : String) (w : World)
    (raw nb c : Bytes)
    (h : SelfWrappedWith S w.global (toPropertyKey (resolve p w.global)) raw nb)
    (hc : S.crypto_secretbox_easy m nb raw = some c) :
    decrypt S p (.str (S.to_base64 c)) w = (.ok (.str m), w.setPad (resolve p w.global)) := by
  obtain ⟨sealed, r, hr, hg, ho⟩ := h.opens S hS
  exact run_decrypt_has S p _ w r _ _ nb raw c m hr hg (hS.base64 c) (hS.base64 nb) ho
    (hS.secretbox_open m nb raw c hc)

/-- After `get_symmetric_key` created an entry, the document has a self-wrapped
entry whose raw key and nonce are the two random buffers drawn. -/
theorem get_symmetric_key_creates (hS : S.Lawful) (p : Val) (w : World)
    (hid : IdentityOk S w.global)
    (habs : Absent w.global (toPropertyKey (resolve p w.global))) :
    SelfWrappedWith S (get_symmetric_key S p w).2.global (toPropertyKey (resolve p w.global))
      (S.randombytes_buf (w.entropy + 1) S.crypto_secretbox_KEYBYTES)
      (S.randombytes_buf w.entropy S.crypto_secretbox_NONCEBYTES) ∧
    (∃ e, (get_symmetric_key S p w).1 = .ok e ∧
      ∃ r, (get_symmetric_key S p w).2.global._symkeys = some r ∧
        r.get (toPropertyKey (resolve p w.global)) = e) ∧
    (get_symmetric_key S p w).2.global._pad = resolve p w.global := by
  obtain ⟨t, e, sealed, hs, h1, hk, _, hr, hp⟩ := run_get_symmetric_key_new S hS p w hid habs
  refine ⟨⟨t, e, sealed, _, hk, hr, Registry.get_set_obj _ _ _ _, hs,
    hS.random_length _ _, hS.random_length _ _⟩, ⟨_, h1, _, hr, Registry.get_set_obj _ _ _ _⟩, hp⟩

theorem setPad_eq_self (w : World) (x : Val) (h : w.global._pad = x) : w.setPad x = w := by
  subst h; rfl

theorem resolve_of_pad (x : Val) (g : Global) (h : g._pad = x) : resolve x g = x := by
  unfold resolve
  split
  · rfl
  · exact h

/-- The calls `encrypt` and `decrypt` start by fetching the entry; once it has
been fetched (and created if need be), running them again from the world reached
gives the same outcome. -/
theorem encrypt_after_get_symmetric_key (p msg : Val) (hmsg : msg ≠ .undefined) (w : World)
    (e : Slot) (r : Registry)
    (h1 : (get_symmetric_key S (resolve p w.global) (w.setPad (resolve p w.global))).1 = .ok e)
    (h2 : (get_symmetric_key S (resolve p w.global)
      (w.setPad (resolve p w.global))).2.global._symkeys = some r)
    (h3 : r.get (toPropertyKey (resolve p w.global)) = e)
    (h4 : r.has (toPropertyKey (resolve p w.global)) = true)
    (h5 : (get_symmetric_key S (resolve p w.global)
      (w.setPad (resolve p w.global))).2.global._pad = resolve p w.global) :
    encrypt S p msg w = encrypt S (resolve p w.global) msg
      (get_symmetric_key S (resolve p w.global) (w.setPad (resolve p w.global))).2 := by
  generalize hrun : get_symmetric_key S (resolve p w.global) (w.setPad (resolve p w.global)) = res
    at h1 h2 h5
  obtain ⟨o, w2⟩ := res
  simp only at h1 h2 h5
  subst h1
  have hres : resolve (resolve p w.global) w2.global = resolve p w.global :=
    resolve_of_pad _ _ h5
  have hrun2 := run_get_symmetric_key_has S (resolve p w.global) w2 r h2 (by rw [hres]; exact h4)
  rw [hres, setPad_eq_self _ _ h5, h3] at hrun2
  unfold encrypt
  simp only [hmsg, if_false, run_bind, run_get_pad, hrun, hres, setPad_eq_self _ _ h5, hrun2]

theorem SelfWrappedWith.congr {g g' : Global} {d : String} {raw nb : Bytes}
    (h : SelfWrappedWith S g d raw nb) (hk : g'._keys = g._keys)
    (hr : g'._symkeys = g._symkeys) : SelfWrappedWith S g' d raw nb := by
  obtain ⟨t, e, sealed, r, h0, h1, h2⟩ := h
  exact ⟨t, e, sealed, r, hk.trans h0, hr.trans h1, h2⟩

/-- From a state where the resolved document has no entry or a self-wrapped one,
`encrypt` succeeds, returns the secret box of the text under the nonce and raw key
of the (possibly just created) self-wrapped entry, and leaves that entry in the
registry with the pointer on the document. -/
theorem encrypt_establishes (hS : S.Lawful) (p : Val) (m : String) (w : World)
    (hid : IdentityOk S w.global)
    (h : Absent w.global (toPropertyKey (resolve p w.global)) ∨
      SelfWrapped S w.global (toPropertyKey (resolve p w.global))) :
    ∃ raw nb c, S.crypto_secretbox_easy m nb raw = some c ∧
      (encrypt S p (.str m) w).1 = .ok (.str (S.to_base64 c)) ∧
      SelfWrappedWith S (encrypt S p (.str m) w).2.global
        (toPropertyKey (resolve p w.global)) raw nb ∧
      (encrypt S p (.str m) w).2.global._pad = resolve p w.global := by
  rcases h with habs | ⟨raw, nb, hsw⟩
  · have hres := resolve_setPad p w
    obtain ⟨hsw, ⟨e, he1, r, he2, he3⟩, hpad⟩ :=
      get_symmetric_key_creates S hS (resolve p w.global) (w.setPad (resolve p w.global))
        hid (by rw [hres]; exact habs)
    rw [hres] at hsw he3 hpad
    have hhas : r.has (toPropertyKey (resolve p w.global)) = true := by
      obtain ⟨_, _, _, r', _, hr', hg', _⟩ := hsw
      rw [he2] at hr'
      cases hr'
      exact Registry.has_of_get _ _ _ hg' (by simp)
    rw [encrypt_after_get_symmetric_key S p (.str m) (by simp) w e r he1 he2 he3 hhas hpad]
    have hres2 := resolve_of_pad _ _ hpad
    obtain ⟨c, hc, hrun⟩ := encrypt_of_selfWrapped S hS (resolve p w.global) m _ _ _
      (by rw [hres2]; exact hsw)
    rw [hres2, setPad_eq_self _ _ hpad] at hrun
    exact ⟨_, _, c, hc, by rw [hrun], by rw [hrun]; exact hsw, by rw [hrun]; exact hpad⟩
  · obtain ⟨c, hc, hrun⟩ := encrypt_of_selfWrapped S hS p m w raw nb hsw
    exact ⟨raw, nb, c, hc, by rw [hrun], by rw [hrun]; exact hsw.congr S rfl rfl,
      by rw [hrun]; rfl⟩

/-- With an entry the local identity opens, `prepare_symmkey` seals the opened
key for the recipient and returns it with the entry's nonce; the registry is not
written. -/
theorem run_prepare_symmkey_has (p : Val) (rs : String) (w : World) (r : Registry) (k n : Val)
    (raw rb sealed : Bytes)
    (hr : w.global._symkeys = some r)
    (hget : r.get (toPropertyKey (resolve p w.global)) = .val (.obj k n))
    (ho : Opens S w.global k raw)
    (hrb : S.from_base64 rs = some rb)
    (hs : S.crypto_box_seal w.entropy raw rb = some sealed) :
    prepare_symmkey S p (.str rs) w =
      (.ok (.obj (.str (S.to_base64 sealed)) n),
       { global := (w.setPad (resolve p w.global)).global, entropy := w.entropy + 1 }) := by
  have hh := Registry.has_of_get _ _ _ hget (by simp)
  have ho' : Opens S (w.setPad (resolve p w.global)).global k raw := ho.congr_keys S rfl
  have hpad : (World.mk (w.setPad (resolve p w.global)).global
      (w.entropy + 1)).global._pad = resolve p w.global := rfl
  have h2 := run_get_symmetric_key_has S (resolve p w.global)
    (World.mk (w.setPad (resolve p w.global)).global (w.entropy + 1)) r hr
    (by rw [resolve_of_pad _ _ hpad]; exact hh)
  rw [resolve_of_pad _ _ hpad, setPad_eq_self _ _ hpad] at h2
  unfold prepare_symmkey
  simp only [reduceCtorEq, if_false, run_bind, run_get_pad,
    run_get_symmetric_key_resolved S p w r hr hh, hget, Slot.nonce, Slot.key, run_JS_pure,
    run_decrypt_asymmetrical S _ k raw ho', encrypt_asymmetrical,
    run_from_base64 S rs rb hrb, run_draw]
  have he : (w.setPad (resolve p w.global)).entropy = w.entropy := rfl
  simp only [he, hs, run_ofOption_some, run_pure, h2, hget, Slot.nonce, run_JS_pure]

/-- The call `publickey` returns the public half of a generated keypair and
leaves it cached; nothing else changes but the entropy position. -/
theorem run_publickey (w : World) (hid : IdentityOk S w.global) :
    ∃ t, (publickey S w).1 = .ok (.str (S.keysAt t).pk) ∧
      (publickey S w).2.global._keys = some (S.keysAt t) ∧
      (publickey S w).2.global._symkeys = w.global._symkeys ∧
      (publickey S w).2.global._pad = w.global._pad := by
  unfold publickey
  simp only [run_bind, run_get_keys, run_pure]
  cases hk : w.global._keys with
  | none => exact ⟨w.entropy, rfl, rfl, rfl, rfl⟩
  | some k =>
    obtain ⟨t, ht⟩ := hid k hk
    subst ht
    exact ⟨t, rfl, hk, rfl, rfl⟩

/-- The call `store_symmkey` with both arguments given: the pointer moves to the
resolved identifier and the value is assigned under its name. -/
theorem run_store_symmkey (p e : Val) (he : e ≠ .undefined) (w : World) :
    store_symmkey p e w =
      (.ok .undefined,
       { global := { _keys := w.global._keys,
                     _symkeys := some ((w.global._symkeys.getD Registry.empty).set
                        (toPropertyKey (resolve p w.global)) e),
                     _pad := resolve p w.global },
         entropy := w.entropy }) := by
  unfold store_symmkey
  simp only [he, if_false, run_bind, run_get_pad, run_create_symkeys_var, run_modifyGlobal,
    run_pure, World.setPad]

end Lemmas

section Inversion

variable {Bytes : Type} (S : Sodium Bytes)

/-- When `get_symmetric_key` returns, what it returns is what the registry it
leaves reads under the resolved name, that name is in the registry, and the
pointer is on the resolved identifier. -/
theorem get_symmetric_key_ok (p : Val) (w : World) (sk : Slot)
    (h : (get_symmetric_key S p w).1 = .ok sk) :
    ∃ r, (get_symmetric_key S p w).2.global._symkeys = some r ∧
      r.get (toPropertyKey (resolve p w.global)) = sk ∧
      r.has (toPropertyKey (resolve p w.global)) = true ∧
      (get_symmetric_key S p w).2.global._pad = resolve p w.global := by
  revert h
  unfold get_symmetric_key
  simp only [run_bind, run_get_pad, run_create_symkeys_var, World.setPad]
  cases hh : (w.global._symkeys.getD Registry.empty).has (toPropertyKey (resolve p w.global)) with
  | true =>
    simp only [if_true, run_pure]
    intro h
    exact ⟨_, rfl, Except.ok.inj h, hh, trivial⟩
  | false =>
    simp only [Bool.false_eq_true, if_false, run_bind, run_draw, run_get_keys,
      encrypt_asymmetrical, from_base64, run_modifyGlobal, run_pure]
    have hset : ∀ v, ((w.global._symkeys.getD Registry.empty).set
        (toPropertyKey (resolve p w.global)) v).has (toPropertyKey (resolve p w.global)) = true :=
      fun v => Registry.has_set_of_not_has _ _ v hh
    cases hk : w.global._keys with
    | some k =>
      simp only []
      cases hb : S.from_base64 k.pk with
      | none => simp only [run_ofOption_none]; intro h; exact absurd h (by simp)
      | some pk =>
        simp only [run_ofOption_some]
        cases hs : S.crypto_box_seal (w.entropy + 1 + 1)
            (S.randombytes_buf (w.entropy + 1) S.crypto_secretbox_KEYBYTES) pk with
        | none => simp only [run_ofOption_none]; intro h; exact absurd h (by simp)
        | some c =>
          simp only [run_ofOption_some]
          intro h
          exact ⟨_, rfl, Except.ok.inj h, hset _, trivial⟩
    | none =>
      simp only []
      cases hb : S.from_base64 (S.keysAt (w.entropy + 1 + 1)).pk with
      | none => simp only [run_ofOption_none]; intro h; exact absurd h (by simp)
      | some pk =>
        simp only [run_ofOption_some]
        cases hs : S.crypto_box_seal (w.entropy + 1 + 1 + 1)
            (S.randombytes_buf (w.entropy + 1) S.crypto_secretbox_KEYBYTES) pk with
        | none => simp only [run_ofOption_none]; intro h; exact absurd h (by simp)
        | some c =>
          simp only [run_ofOption_some]
          intro h
          exact ⟨_, rfl, Except.ok.inj h, hset _, trivial⟩

/-- When `decrypt_asymmetrical` returns `raw`, the identity it leaves cached
opens the wrapped key to `raw`; registry and pointer are untouched. -/
theorem decrypt_asymmetrical_ok (k : Val) (w : World) (raw : Bytes)
    (h : (decrypt_asymmetrical S k w).1 = .ok raw) :
    Opens S (decrypt_asymmetrical S k w).2.global k raw ∧
    (decrypt_asymmetrical S k w).2.global._symkeys = w.global._symkeys ∧
    (decrypt_asymmetrical S k w).2.global._pad = w.global._pad := by
  revert h
  unfold decrypt_asymmetrical
  simp only [run_bind, run_get_keys]
  cases k with
  | undefined => cases hk : w.global._keys <;> simp [from_base64]
  | null => cases hk : w.global._keys <;> simp [from_base64]
  | obj a b => cases hk : w.global._keys <;> simp [from_base64]
  | str s =>
    cases hk : w.global._keys with
    | some ks =>
      simp only [from_base64]
      cases h1 : S.from_base64 s with
      | none => simp
      | some kb =>
        cases h2 : S.from_base64 ks.pk with
        | none => simp
        | some pkb =>
          cases h3 : S.from_base64 ks.sk with
          | none => simp
          | some skb =>
            cases h4 : S.crypto_box_seal_open kb pkb skb with
            | none => simp [h4]
            | some r =>
              simp only [run_ofOption_some, h4]
              intro h
              cases h
              exact ⟨⟨ks, s, kb, pkb, skb, hk, rfl, h1, h2, h3, h4⟩, trivial, trivial⟩
    | none =>
      simp only [from_base64]
      cases h1 : S.from_base64 s with
      | none => simp
      | some kb =>
        cases h2 : S.from_base64 (S.keysAt w.entropy).pk with
        | none => simp
        | some pkb =>
          cases h3 : S.from_base64 (S.keysAt w.entropy).sk with
          | none => simp
          | some skb =>
            cases h4 : S.crypto_box_seal_open kb pkb skb with
            | none => simp [h4]
            | some r =>
              simp only [run_ofOption_some, h4]
              intro h
              cases h
              exact ⟨⟨S.keysAt w.entropy, s, kb, pkb, skb, rfl, rfl, h1, h2, h3, h4⟩, trivial, trivial⟩

/-- When `encrypt` returns, the registry it leaves holds under the resolved name
an entry `{key, nonce}` whose nonce decodes, whose key the cached identity
opens, and the value returned is the base64 form of the secret box of the text
under that nonce and raw key. -/
theorem encrypt_ok (p : Val) (m : String) (w : World) (C : Val)
    (h : (encrypt S p (.str m) w).1 = .ok C) :
    ∃ r k ns nb raw c,
      (encrypt S p (.str m) w).2.global._symkeys = some r ∧
      r.get (toPropertyKey (resolve p w.global)) = .val (.obj k (.str ns)) ∧
      S.from_base64 ns = some nb ∧
      Opens S (encrypt S p (.str m) w).2.global k raw ∧
      S.crypto_secretbox_easy m nb raw = some c ∧
      C = .str (S.to_base64 c) ∧
      (encrypt S p (.str m) w).2.global._pad = resolve p w.global := by
  revert h
  unfold encrypt
  simp only [reduceCtorEq, if_false]
  rw [run_bind, run_get_pad]
  simp only []
  rw [run_bind]
  have hpost := get_symmetric_key_ok S (resolve p w.global) (w.setPad (resolve p w.global))
  rw [resolve_setPad] at hpost
  generalize get_symmetric_key S (resolve p w.global) (w.setPad (resolve p w.global)) = res
    at hpost ⊢
  obtain ⟨o, w2⟩ := res
  cases o with
  | error e => intro h; exact absurd h (by simp)
  | ok sk =>
    obtain ⟨r, hr, hg, _, hp⟩ := hpost sk rfl
    simp only at hr hg hp ⊢
    cases sk with
    | native nm => simp [Slot.nonce, from_base64]
    | val v =>
      cases v with
      | undefined => simp [Slot.nonce]
      | null => simp [Slot.nonce]
      | str s0 => simp [Slot.nonce, from_base64]
      | obj k n =>
        cases n with
        | undefined => simp [Slot.nonce, from_base64]
        | null => simp [Slot.nonce, from_base64]
        | obj a b => simp [Slot.nonce, from_base64]
        | str ns =>
          simp only [Slot.nonce, Slot.key, run_bind, run_JS_pure, from_base64]
          cases hnb : S.from_base64 ns with
          | none => simp
          | some nb =>
            simp only [run_ofOption_some]
            have hd := decrypt_asymmetrical_ok S k w2
            generalize decrypt_asymmetrical S k w2 = res2 at hd ⊢
            obtain ⟨o2, w3⟩ := res2
            cases o2 with
            | error e => intro h; exact absurd h (by simp)
            | ok raw =>
              obtain ⟨ho, hr3, hp3⟩ := hd raw rfl
              simp only at ho hr3 hp3 ⊢
              simp only [crypto_secretbox_easy, run_bind]
              cases hc : S.crypto_secretbox_easy m nb raw with
              | none => simp
              | some c =>
                simp only [run_ofOption_some, run_pure]
                intro h
                exact ⟨r, k, ns, nb, raw, c, hr3.trans hr, hg, hnb, ho, hc,
                  (Except.ok.inj h).symm, hp3.trans hp⟩

end Inversion

/-- A fresh process has no identity yet. -/
theorem IdentityOk.fresh {Bytes : Type} (S : Sodium Bytes) (seed : Nat) :
    IdentityOk S (World.fresh seed).global := by
  intro k hk
  simp [World.fresh, Global.fresh] at hk

/-! ## Round trip -/

/-- C1. Round trip, under the inverse laws of the provider, for every state,
document `d` and text `m`. (1) From a state whose cached identity (if any) came
from the generator and in which `d` has no registry entry or has a self-wrapped
one, `encrypt(d, m)` returns a ciphertext `c` and `decrypt(d, c)`, run in the
state `encrypt` left, returns `m`. (2) From any state at all, whenever
`encrypt(d, m)` returns a value `c`, that value is a string and `decrypt(d, c)`
returns `m`. -/
theorem encrypt_decrypt_roundtrip {Bytes : Type} (S : Sodium Bytes) (hS : S.Lawful)
    (w : World) (d m : String) :
    (IdentityOk S w.global → (Absent w.global d ∨ SelfWrapped S w.global d) →
      ∃ c, (encrypt S (.str d) (.str m) w).1 = .ok (.str c) ∧
        (decrypt S (.str d) (.str c) (encrypt S (.str d) (.str m) w).2).1 = .ok (.str m)) ∧
    (∀ c, (encrypt S (.str d) (.str m) w).1 = .ok c →
      (∃ cs, c = .str cs) ∧
        (decrypt S (.str d) c (encrypt S (.str d) (.str m) w).2).1 = .ok (.str m)) := by
  constructor
  · intro hid h
    obtain ⟨raw, nb, c, hc, hres, hsw, _⟩ := encrypt_establishes S hS (.str d) m w hid h
    refine ⟨S.to_base64 c, hres, ?_⟩
    rw [decrypt_of_selfWrapped S hS (.str d) m _ raw nb c hsw hc]
  · intro C hC
    obtain ⟨r, k, ns, nb, raw, c, hr, hg, hnb, ho, hc, rfl, _⟩ := encrypt_ok S (.str d) m w C hC
    refine ⟨⟨_, rfl⟩, ?_⟩
    rw [run_decrypt_has S (.str d) _ _ r k ns nb raw c m hr hg (hS.base64 c) hnb ho
      (hS.secretbox_open m nb raw c hc)]

theorem encrypt_decrypt_roundtrip_witness :
    toySodium.Lawful ∧ IdentityOk toySodium (World.fresh 0).global ∧
    Absent (World.fresh 0).global "pad1" ∧
    (∃ c, (encrypt toySodium (.str "pad1") (.str "hello") (World.fresh 0)).1 = .ok (.str c) ∧
      (decrypt toySodium (.str "pad1") (.str c)
        (encrypt toySodium (.str "pad1") (.str "hello") (World.fresh 0)).2).1
          = .ok (.str "hello")) ∧
    (∀ c, (encrypt toySodium (.str "pad1") (.str "hello") (World.fresh 0)).1 = .ok c →
      (∃ cs, c = .str cs) ∧
        (decrypt toySodium (.str "pad1") c
          (encrypt toySodium (.str "pad1") (.str "hello") (World.fresh 0)).2).1
            = .ok (.str "hello")) :=
  ⟨toySodium_lawful, IdentityOk.fresh toySodium 0, by decide,
    (encrypt_decrypt_roundtrip toySodium toySodium_lawful (World.fresh 0) "pad1" "hello").1
      (IdentityOk.fresh toySodium 0) (Or.inl (by decide)),
    (encrypt_decrypt_roundtrip toySodium toySodium_lawful (World.fresh 0) "pad1" "hello").2⟩

/-! ## Key exchange -/

/-- C9. Result of `prepare_symmkey`: when the entry `{key: k, nonce: n}` of
document `d` is opened by the local identity to the raw key `raw`, then for the
public key of any generated recipient keypair `prepare_symmkey(d, r)` returns
`{key, nonce}` where `key` is the base64 form of `raw` sealed for the recipient
and `nonce` is exactly `n`; a recipient caching that keypair opens the returned
key to `raw`. -/
theorem prepare_symmkey_result {Bytes : Type} (S : Sodium Bytes) (hS : S.Lawful)
    (w : World) (d : String) (r : Registry) (k n : Val) (raw : Bytes) (t : Nat)
    (hr : w.global._symkeys = some r) (hget : r.get d = .val (.obj k n))
    (ho : Opens S w.global k raw) :
    ∃ sealed, S.crypto_box_seal w.entropy raw (S.crypto_box_keypair t).1 = some sealed ∧
      (prepare_symmkey S (.str d) (.str (S.keysAt t).pk) w).1 =
        .ok (.obj (.str (S.to_base64 sealed)) n) ∧
      ∀ g : Global, g._keys = some (S.keysAt t) → Opens S g (.str (S.to_base64 sealed)) raw := by
  obtain ⟨sealed, hs⟩ := hS.seal_total t w.entropy raw
  refine ⟨sealed, hs, ?_, fun g hg => Opens.of_sealed S hS g t w.entropy raw sealed hg hs⟩
  have h := run_prepare_symmkey_has S (.str d) (S.keysAt t).pk w r k n raw _ sealed hr hget ho
    (hS.base64 _) hs
  rw [h]

theorem prepare_symmkey_result_witness :
    ∃ sealed, toySodium.crypto_box_seal toyWorld.entropy (List.replicate 32 'b')
        (toySodium.crypto_box_keypair 7).1 = some sealed ∧
      (prepare_symmkey toySodium (.str "pad1") (.str (toySodium.keysAt 7).pk) toyWorld).1 =
        .ok (.obj (.str (toySodium.to_base64 sealed)) (.str "aaaaaaaaaaaaaaaaaaaaaaaa")) ∧
      ∀ g : Global, g._keys = some (toySodium.keysAt 7) →
        Opens toySodium g (.str (toySodium.to_base64 sealed)) (List.replicate 32 'b') :=
  prepare_symmkey_result toySodium toySodium_lawful toyWorld "pad1"
    { own := [("pad1", .obj (.str "#cdbbbbbbbbbbbbbbbbbbbbbbbbbbbbbbbb")
                            (.str "aaaaaaaaaaaaaaaaaaaaaaaa"))],
      proto := .objectPrototype }
    (.str "#cdbbbbbbbbbbbbbbbbbbbbbbbbbbbbbbbb") (.str "aaaaaaaaaaaaaaaaaaaaaaaa")
    (List.replicate 32 'b') 7 rfl (by decide)
    ⟨{ pk := "Pc", sk := "Sc" }, "#cdbbbbbbbbbbbbbbbbbbbbbbbbbbbbbbbb",
      "#cdbbbbbbbbbbbbbbbbbbbbbbbbbbbbbbbb".data, ['P', 'c'], ['S', 'c'],
      rfl, rfl, rfl, rfl, rfl, by decide⟩

/-- C2. Key exchange between two processes `A` and `B` (separate worlds), under
the inverse laws of the provider. `A` starts with no entry or a self-wrapped one
for `d`. `A` encrypts `m` to `C`, `B` publishes its public key, `A` prepares its
key for it, `B` stores the result, and then `B` decrypts `C` to `m`; `B` encrypts
`m'` to `C'` under the same nonce and raw key as `A` used, `A` decrypts `C'` to
`m'`, and both registries hold an entry for `d` with the same nonce. -/
theorem key_exchange {Bytes : Type} (S : Sodium Bytes) (hS : S.Lawful)
    (wA wB : World) (d m m' : String)
    (hidA : IdentityOk S wA.global) (hidB : IdentityOk S wB.global)
    (hA : Absent wA.global d ∨ SelfWrapped S wA.global d) :
    ∃ C wA1 pkB wB1 k wA2 wB2 wB3 C' wB4,
      encrypt S (.str d) (.str m) wA = (.ok (.str C), wA1) ∧
      publickey S wB = (.ok pkB, wB1) ∧
      prepare_symmkey S (.str d) pkB wA1 = (.ok k, wA2) ∧
      store_symmkey (.str d) k wB1 = (.ok .undefined, wB2) ∧
      decrypt S (.str d) (.str C) wB2 = (.ok (.str m), wB3) ∧
      encrypt S (.str d) (.str m') wB3 = (.ok (.str C'), wB4) ∧
      (decrypt S (.str d) (.str C') wA2).1 = .ok (.str m') ∧
      (∃ nb raw c c', S.crypto_secretbox_easy m nb raw = some c ∧ C = S.to_base64 c ∧
        S.crypto_secretbox_easy m' nb raw = some c' ∧ C' = S.to_base64 c') ∧
      (∃ rA rB kA kB n, wA2.global._symkeys = some rA ∧ rA.get d = .val (.obj kA n) ∧
        wB4.global._symkeys = some rB ∧ rB.get d = .val (.obj kB n)) := by
  -- A encrypts
  obtain ⟨raw, nb, c, hc, hC, hswA1, hpadA1⟩ := encrypt_establishes S hS (.str d) m wA hidA hA
  have hres : ∀ g : Global, resolve (.str d) g = .str d := fun _ => rfl
  simp only [hres, toPropertyKey] at hswA1 hpadA1
  -- B publishes its public key
  obtain ⟨tB, hpk, hkB1, hrB1, _⟩ := run_publickey S wB hidB
  -- A prepares the key for B
  obtain ⟨sealedA, rA, hrA, hgA, hoA⟩ := hswA1.opens S hS
  obtain ⟨sealedB, hsB⟩ := hS.seal_total tB (encrypt S (.str d) (.str m) wA).2.entropy raw
  have hprep := run_prepare_symmkey_has S (.str d) (S.keysAt tB).pk _ rA _ _ raw _ sealedB
    hrA hgA hoA (hS.base64 _) hsB
  have hswA2 : SelfWrappedWith S (World.mk (((encrypt S (.str d) (.str m) wA).2).setPad
      (.str d)).global ((encrypt S (.str d) (.str m) wA).2.entropy + 1)).global d raw nb :=
    hswA1.congr S rfl rfl
  -- B stores it
  have hstore := run_store_symmkey (.str d)
    (.obj (.str (S.to_base64 sealedB)) (.str (S.to_base64 nb))) (by simp) (publickey S wB).2
  generalize hwB2 : World.mk (Global.mk (publickey S wB).2.global._keys
        (some (((publickey S wB).2.global._symkeys.getD Registry.empty).set
          (toPropertyKey (resolve (.str d) (publickey S wB).2.global))
          (.obj (.str (S.to_base64 sealedB)) (.str (S.to_base64 nb)))))
        (resolve (.str d) (publickey S wB).2.global)) (publickey S wB).2.entropy = wB2
    at hstore
  have hswB2 : SelfWrappedWith S wB2.global d raw nb := by
    obtain ⟨_, _, _, _, _, _, _, _, hlr, hln⟩ := hswA1
    subst hwB2
    exact ⟨tB, _, sealedB, _, hkB1, rfl, Registry.get_set_obj _ _ _ _, hsB, hlr, hln⟩
  -- B decrypts C and encrypts m'
  have hdecB := decrypt_of_selfWrapped S hS (.str d) m wB2 raw nb c hswB2 hc
  obtain ⟨c', hc', hencB⟩ := encrypt_of_selfWrapped S hS (.str d) m' (wB2.setPad (.str d)) raw nb
    (hswB2.congr S rfl rfl)
  -- A decrypts C'
  have hdecA := decrypt_of_selfWrapped S hS (.str d) m' (World.mk
    (((encrypt S (.str d) (.str m) wA).2).setPad (.str d)).global
    ((encrypt S (.str d) (.str m) wA).2.entropy + 1)) raw nb c' hswA2 hc'
  refine ⟨S.to_base64 c, (encrypt S (.str d) (.str m) wA).2, .str (S.keysAt tB).pk,
    (publickey S wB).2, _, _, _, _, S.to_base64 c', _, Prod.ext hC rfl, Prod.ext hpk rfl,
    hprep, hstore, hdecB, hencB, ?_, ⟨nb, raw, c, c', hc, rfl, hc', rfl⟩, ?_⟩
  · exact congrArg Prod.fst hdecA
  · obtain ⟨_, _, sA, rA', _, hrA', hgA', _⟩ := hswA2
    obtain ⟨_, _, sB, rB', _, hrB', hgB', _⟩ := hswB2
    exact ⟨rA', rB', _, _, _, hrA', hgA', hrB', hgB'⟩

theorem key_exchange_witness :
    IdentityOk toySodium (World.fresh 0).global ∧ IdentityOk toySodium (World.fresh 10).global ∧
    Absent (World.fresh 0).global "pad1" ∧
    ∃ C wA1 pkB wB1 k wA2 wB2 wB3 C' wB4,
      encrypt toySodium (.str "pad1") (.str "hello") (World.fresh 0) = (.ok (.str C), wA1) ∧
      publickey toySodium (World.fresh 10) = (.ok pkB, wB1) ∧
      prepare_symmkey toySodium (.str "pad1") pkB wA1 = (.ok k, wA2) ∧
      store_symmkey (.str "pad1") k wB1 = (.ok .undefined, wB2) ∧
      decrypt toySodium (.str "pad1") (.str C) wB2 = (.ok (.str "hello"), wB3) ∧
      encrypt toySodium (.str "pad1") (.str "world") wB3 = (.ok (.str C'), wB4) ∧
      (decrypt toySodium (.str "pad1") (.str C') wA2).1 = .ok (.str "world") ∧
      (∃ nb raw c c', toySodium.crypto_secretbox_easy "hello" nb raw = some c ∧
        C = toySodium.to_base64 c ∧
        toySodium.crypto_secretbox_easy "world" nb raw = some c' ∧
        C' = toySodium.to_base64 c') ∧
      (∃ rA rB kA kB n, wA2.global._symkeys = some rA ∧ rA.get "pad1" = .val (.obj kA n) ∧
        wB4.global._symkeys = some rB ∧ rB.get "pad1" = .val (.obj kB n)) :=
  ⟨IdentityOk.fresh toySodium 0, IdentityOk.fresh toySodium 10, by decide,
    key_exchange toySodium toySodium_lawful (World.fresh 0) (World.fresh 10) "pad1" "hello"
      "world" (IdentityOk.fresh toySodium 0) (IdentityOk.fresh toySodium 10)
      (Or.inl (by decide))⟩

/-! ## The optional identifier -/

theorem resolve_null (g : Global) : resolve .null g = g._pad := rfl

theorem resolve_undefined (g : Global) : resolve .undefined g = g._pad := rfl

theorem resolve_pad_self (g : Global) : resolve g._pad g = g._pad :=
  resolve_of_pad _ _ rfl

/-- C7. Omitted identifier equals explicit current identifier: in a state whose
pointer is `p`, each of `encrypt`, `decrypt`, `store_symmkey`, `prepare_symmkey`
called with the single (supplied) argument `x` is the same call, with the same
result and the same final world, as the two-argument form with `p` as identifier. -/
theorem omitted_identifier_eq_current {Bytes : Type} (S : Sodium Bytes) (w : World)
    (p x : Val) (hp : w.global._pad = p) (hx : x ≠ .undefined) :
    encrypt S x .undefined w = encrypt S p x w ∧
    decrypt S x .undefined w = decrypt S p x w ∧
    store_symmkey x .undefined w = store_symmkey p x w ∧
    prepare_symmkey S x .undefined w = prepare_symmkey S p x w := by
  subst hp
  refine ⟨?_, ?_, ?_, ?_⟩
  · unfold encrypt
    simp only [hx, if_true, if_false, run_bind, run_get_pad, resolve_null, resolve_pad_self]
  · unfold decrypt
    simp only [hx, if_true, if_false, run_bind, run_get_pad, resolve_null, resolve_pad_self]
  · unfold store_symmkey
    simp only [hx, if_true, if_false, run_bind, run_get_pad, resolve_null, resolve_pad_self]
  · unfold prepare_symmkey
    simp only [hx, if_true, if_false, run_bind, run_get_pad, resolve_null, resolve_pad_self]

theorem omitted_identifier_eq_current_witness :
    toyWorld.global._pad = .str "pad1" ∧ Val.str "hello" ≠ .undefined ∧
    (encrypt toySodium (.str "hello") .undefined toyWorld
      = encrypt toySodium (.str "pad1") (.str "hello") toyWorld ∧
    decrypt toySodium (.str "hello") .undefined toyWorld
      = decrypt toySodium (.str "pad1") (.str "hello") toyWorld ∧
    store_symmkey (.str "hello") .undefined toyWorld
      = store_symmkey (.str "pad1") (.str "hello") toyWorld ∧
    prepare_symmkey toySodium (.str "hello") .undefined toyWorld
      = prepare_symmkey toySodium (.str "pad1") (.str "hello") toyWorld) :=
  ⟨rfl, by decide,
    omitted_identifier_eq_current toySodium toyWorld (.str "pad1") (.str "hello") rfl
      (by decide)⟩

/-! ## Creation of an entry -/

/-- C8. Self-wrapping at creation: when `get_symmetric_key` finds no entry under
the resolved name (and so creates one), the entry it stores and returns is
`{key, nonce}` with `nonce` the base64 form of the first random buffer and `key`
the base64 form of the second random buffer sealed for the public key of the
local identity; `decrypt_asymmetrical` applied to the new entry's key then
succeeds, returns exactly that second buffer, and changes nothing. -/
theorem self_wrapping_at_creation {Bytes : Type} (S : Sodium Bytes) (hS : S.Lawful)
    (p : Val) (w : World) (hid : IdentityOk S w.global)
    (habs : Absent w.global (toPropertyKey (resolve p w.global))) :
    ∃ t e sealed r,
      (get_symmetric_key S p w).2.global._keys = some (S.keysAt t) ∧
      S.crypto_box_seal e (S.randombytes_buf (w.entropy + 1) S.crypto_secretbox_KEYBYTES)
        (S.crypto_box_keypair t).1 = some sealed ∧
      (get_symmetric_key S p w).1 =
        .ok (.val (.obj (.str (S.to_base64 sealed))
          (.str (S.to_base64 (S.randombytes_buf w.entropy S.crypto_secretbox_NONCEBYTES))))) ∧
      (get_symmetric_key S p w).2.global._symkeys = some r ∧
      r.get (toPropertyKey (resolve p w.global)) =
        .val (.obj (.str (S.to_base64 sealed))
          (.str (S.to_base64 (S.randombytes_buf w.entropy S.crypto_secretbox_NONCEBYTES)))) ∧
      decrypt_asymmetrical S (.str (S.to_base64 sealed)) (get_symmetric_key S p w).2 =
        (.ok (S.randombytes_buf (w.entropy + 1) S.crypto_secretbox_KEYBYTES),
         (get_symmetric_key S p w).2) := by
  obtain ⟨t, e, sealed, hs, h1, hk, _, hr, _⟩ := run_get_symmetric_key_new S hS p w hid habs
  exact ⟨t, e, sealed, _, hk, hs, h1, hr, Registry.get_set_obj _ _ _ _,
    run_decrypt_asymmetrical S _ _ _ (Opens.of_sealed S hS _ t e _ sealed hk hs)⟩

theorem self_wrapping_at_creation_witness :
    IdentityOk toySodium (World.fresh 0).global ∧
    Absent (World.fresh 0).global (toPropertyKey (resolve (.str "pad1") (World.fresh 0).global)) ∧
    ∃ t e sealed r,
      (get_symmetric_key toySodium (.str "pad1") (World.fresh 0)).2.global._keys
        = some (toySodium.keysAt t) ∧
      toySodium.crypto_box_seal e
        (toySodium.randombytes_buf ((World.fresh 0).entropy + 1)
          toySodium.crypto_secretbox_KEYBYTES)
        (toySodium.crypto_box_keypair t).1 = some sealed ∧
      (get_symmetric_key toySodium (.str "pad1") (World.fresh 0)).1 =
        .ok (.val (.obj (.str (toySodium.to_base64 sealed))
          (.str (toySodium.to_base64 (toySodium.randombytes_buf (World.fresh 0).entropy
            toySodium.crypto_secretbox_NONCEBYTES))))) ∧
      (get_symmetric_key toySodium (.str "pad1") (World.fresh 0)).2.global._symkeys = some r ∧
      r.get (toPropertyKey (resolve (.str "pad1") (World.fresh 0).global)) =
        .val (.obj (.str (toySodium.to_base64 sealed))
          (.str (toySodium.to_base64 (toySodium.randombytes_buf (World.fresh 0).entropy
            toySodium.crypto_secretbox_NONCEBYTES)))) ∧
      decrypt_asymmetrical toySodium (.str (toySodium.to_base64 sealed))
          (get_symmetric_key toySodium (.str "pad1") (World.fresh 0)).2 =
        (.ok (toySodium.randombytes_buf ((World.fresh 0).entropy + 1)
            toySodium.crypto_secretbox_KEYBYTES),
         (get_symmetric_key toySodium (.str "pad1") (World.fresh 0)).2) :=
  ⟨IdentityOk.fresh toySodium 0, by decide,
    self_wrapping_at_creation toySodium toySodium_lawful (.str "pad1") (World.fresh 0)
      (IdentityOk.fresh toySodium 0) (by decide)⟩

/-! ## Lazy initialisation -/

theorem keysGrow_refl {Bytes : Type} (S : Sodium Bytes) (o : Option Keys) : KeysGrow S o o :=
  Or.inl rfl

theorem keysGrow_trans {Bytes : Type} {S : Sodium Bytes} {a b c : Option Keys}
    (h1 : KeysGrow S a b) (h2 : KeysGrow S b c) : KeysGrow S a c := by
  rcases h1 with rfl | ⟨rfl, t, rfl⟩
  · exact h2
  · rcases h2 with rfl | ⟨h, _⟩
    · exact Or.inr ⟨rfl, t, rfl⟩
    · exact absurd h (by simp)

theorem registryGrows_refl (key : String) (o : Option Registry) : RegistryGrows key o o :=
  Or.inl rfl

theorem registryGrows_trans {key : String} {a b c : Option Registry}
    (h1 : RegistryGrows key a b) (h2 : RegistryGrows key b c) : RegistryGrows key a c := by
  rcases h1 with rfl | ⟨rfl, rfl⟩ | ⟨hn, v, rfl⟩
  · exact h2
  · rcases h2 with rfl | ⟨h, _⟩ | ⟨hn, v, rfl⟩
    · exact Or.inr (Or.inl ⟨rfl, rfl⟩)
    · exact absurd h (by simp)
    · exact Or.inr (Or.inr ⟨hn, v, rfl⟩)
  · rcases h2 with rfl | ⟨h, _⟩ | ⟨hn', _, _⟩
    · exact Or.inr (Or.inr ⟨hn, v, rfl⟩)
    · exact absurd h (by simp)
    · rw [Option.getD_some, Registry.has_set_of_not_has _ _ _ hn] at hn'
      exact absurd hn' (by simp)

theorem lazyFrom_refl {Bytes : Type} (S : Sodium Bytes) (x : Val) (w : World) :
    LazyFrom S x w w :=
  fun h => ⟨keysGrow_refl S _, registryGrows_refl _ _, h⟩

theorem lazyFrom_trans {Bytes : Type} {S : Sodium Bytes} {x : Val} {a b c : World}
    (h1 : LazyFrom S x a b) (h2 : LazyFrom S x b c) : LazyFrom S x a c := by
  intro h
  obtain ⟨k1, r1, p1⟩ := h1 h
  obtain ⟨k2, r2, p2⟩ := h2 p1
  exact ⟨keysGrow_trans k1 k2, registryGrows_trans r1 r2, p2⟩

/-- A world that differs only in the entropy position. -/
theorem LazyFrom.of_global_eq {Bytes : Type} (S : Sodium Bytes) (x : Val) (w w' : World)
    (h : w'.global = w.global) : LazyFrom S x w w' := by
  intro hp
  rw [LazyInit, h]
  exact ⟨keysGrow_refl S _, registryGrows_refl _ _, hp⟩

section StepsRules

variable {Bytes : Type} (S : Sodium Bytes) (x : Val)

theorem steps_pure {α : Type} (a : α) : Steps (LazyFrom S x) (Pure.pure a : JS α) :=
  fun w => lazyFrom_refl S x w

theorem steps_JS_pure {α : Type} (a : α) : Steps (LazyFrom S x) (JS.pure a : JS α) :=
  fun w => lazyFrom_refl S x w

theorem steps_throw {α : Type} (e : Err) : Steps (LazyFrom S x) (JS.throw e : JS α) :=
  fun w => lazyFrom_refl S x w

theorem steps_ofOption {α : Type} (e : Err) (o : Option α) :
    Steps (LazyFrom S x) (JS.ofOption e o) := by
  cases o
  · exact steps_throw S x e
  · exact steps_JS_pure S x _

theorem steps_draw : Steps (LazyFrom S x) JS.draw :=
  fun w => LazyFrom.of_global_eq S x w _ rfl

theorem steps_bind {α β : Type} {m : JS α} {f : α → JS β}
    (hm : Steps (LazyFrom S x) m) (hf : ∀ a, Steps (LazyFrom S x) (f a)) :
    Steps (LazyFrom S x) (m >>= f) := by
  intro w
  have h1 := hm w
  rw [run_bind]
  generalize m w = res at h1
  obtain ⟨o, w'⟩ := res
  cases o with
  | error e => exact h1
  | ok a => exact lazyFrom_trans h1 (hf a w')

theorem steps_from_base64 (v : Val) : Steps (LazyFrom S x) (from_base64 S v) := by
  cases v with
  | str s => exact steps_ofOption S x _ _
  | undefined => exact steps_throw S x _
  | null => exact steps_throw S x _
  | obj a b => exact steps_throw S x _

theorem steps_key (e : Slot) : Steps (LazyFrom S x) e.key := by
  unfold Slot.key
  split
  · exact steps_JS_pure S x _
  · exact steps_throw S x _
  · exact steps_throw S x _
  · exact steps_JS_pure S x _

theorem steps_nonce (e : Slot) : Steps (LazyFrom S x) e.nonce := by
  unfold Slot.nonce
  split
  · exact steps_JS_pure S x _
  · exact steps_throw S x _
  · exact steps_throw S x _
  · exact steps_JS_pure S x _

theorem steps_get_keys : Steps (LazyFrom S x) (get_keys S) := by
  intro w hp
  rw [run_get_keys]
  split
  · exact ⟨keysGrow_refl S _, registryGrows_refl _ _, hp⟩
  · next hk => exact ⟨Or.inr ⟨hk, w.entropy, rfl⟩, registryGrows_refl _ _, hp⟩

theorem steps_encrypt_asymmetrical (msg : Bytes) (pk : Val) :
    Steps (LazyFrom S x) (encrypt_asymmetrical S msg pk) :=
  steps_bind S x (steps_from_base64 S x _) fun _ =>
    steps_bind S x (steps_draw S x) fun _ =>
      steps_bind S x (steps_ofOption S x _ _) fun _ => steps_pure S x _

theorem steps_decrypt_asymmetrical (msg : Val) :
    Steps (LazyFrom S x) (decrypt_asymmetrical S msg) :=
  steps_bind S x (steps_get_keys S x) fun _ =>
    steps_bind S x (steps_from_base64 S x _) fun _ =>
      steps_bind S x (steps_from_base64 S x _) fun _ =>
        steps_bind S x (steps_from_base64 S x _) fun _ => steps_ofOption S x _ _

theorem steps_crypto_secretbox_easy (msg : Val) (n k : Bytes) :
    Steps (LazyFrom S x) (crypto_secretbox_easy S msg n k) := by
  unfold crypto_secretbox_easy
  split
  · exact steps_bind S x (steps_ofOption S x _ _) fun _ => steps_pure S x _
  · exact steps_throw S x _

theorem steps_get_symmetric_key : Steps (LazyFrom S x) (get_symmetric_key S x) := by
  intro w hp
  have hres : resolve x w.global = x := resolve_of_pad x _ hp
  unfold get_symmetric_key
  simp only [run_bind, run_get_pad, hres, setPad_eq_self w x hp, run_create_symkeys_var]
  have hreg : RegistryGrows (toPropertyKey x) w.global._symkeys
      (some (w.global._symkeys.getD Registry.empty)) := by
    cases h : w.global._symkeys with
    | none => exact Or.inr (Or.inl ⟨rfl, rfl⟩)
    | some r => exact Or.inl rfl
  cases hh : (w.global._symkeys.getD Registry.empty).has (toPropertyKey x) with
  | true =>
    simp only [if_true, run_pure]
    exact ⟨keysGrow_refl S _, hreg, hp⟩
  | false =>
    simp only [Bool.false_eq_true, if_false, run_bind, run_draw, run_get_keys,
      encrypt_asymmetrical, from_base64, run_modifyGlobal, run_pure]
    cases hk : w.global._keys with
    | some k =>
      simp only []
      cases hb : S.from_base64 k.pk with
      | none =>
        simp only [run_ofOption_none]
        exact ⟨Or.inl hk.symm, hreg, hp⟩
      | some pk =>
        simp only [run_ofOption_some]
        cases hs : S.crypto_box_seal (w.entropy + 1 + 1)
            (S.randombytes_buf (w.entropy + 1) S.crypto_secretbox_KEYBYTES) pk with
        | none =>
          simp only [run_ofOption_none]
          exact ⟨Or.inl hk.symm, hreg, hp⟩
        | some c =>
          simp only [run_ofOption_some]
          exact ⟨Or.inl hk.symm, Or.inr (Or.inr ⟨hh, _, rfl⟩), hp⟩
    | none =>
      simp only []
      cases hb : S.from_base64 (S.keysAt (w.entropy + 1 + 1)).pk with
      | none =>
        simp only [run_ofOption_none]
        exact ⟨Or.inr ⟨hk, _, rfl⟩, hreg, hp⟩
      | some pk =>
        simp only [run_ofOption_some]
        cases hs : S.crypto_box_seal (w.entropy + 1 + 1 + 1)
            (S.randombytes_buf (w.entropy + 1) S.crypto_secretbox_KEYBYTES) pk with
        | none =>
          simp only [run_ofOption_none]
          exact ⟨Or.inr ⟨hk, _, rfl⟩, hreg, hp⟩
        | some c =>
          simp only [run_ofOption_some]
          exact ⟨Or.inr ⟨hk, _, rfl⟩, Or.inr (Or.inr ⟨hh, _, rfl⟩), hp⟩

theorem lazyInit_of_steps {α : Type} (m : JS α) (hm : Steps (LazyFrom S x) m) (w : World) :
    LazyInit S x w (m (w.setPad x)).2 :=
  hm (w.setPad x) rfl

theorem steps_encrypt_tail (msg : Val) :
    Steps (LazyFrom S x) (get_symmetric_key S x >>= fun sk => do
      let n ← sk.nonce
      let nonce ← from_base64 S n
      let k ← sk.key
      let key ← decrypt_asymmetrical S k
      crypto_secretbox_easy S msg nonce key) :=
  steps_bind S x (steps_get_symmetric_key S x) fun _ =>
    steps_bind S x (steps_nonce S x _) fun _ =>
      steps_bind S x (steps_from_base64 S x _) fun _ =>
        steps_bind S x (steps_key S x _) fun _ =>
          steps_bind S x (steps_decrypt_asymmetrical S x _) fun _ =>
            steps_crypto_secretbox_easy S x _ _ _

theorem steps_decrypt_tail (cypher : Val) :
    Steps (LazyFrom S x) (get_symmetric_key S x >>= fun sk => do
      let c ← from_base64 S cypher
      let n ← sk.nonce
      let nonce ← from_base64 S n
      let k ← sk.key
      let key ← decrypt_asymmetrical S k
      let m ← JS.ofOption Err.authenticationError (S.crypto_secretbox_open_easy c nonce key)
      pure (Val.str m)) :=
  steps_bind S x (steps_get_symmetric_key S x) fun _ =>
    steps_bind S x (steps_from_base64 S x _) fun _ =>
      steps_bind S x (steps_nonce S x _) fun _ =>
        steps_bind S x (steps_from_base64 S x _) fun _ =>
          steps_bind S x (steps_key S x _) fun _ =>
            steps_bind S x (steps_decrypt_asymmetrical S x _) fun _ =>
              steps_bind S x (steps_ofOption S x _ _) fun _ => steps_pure S x _

theorem steps_prepare_tail (recipient_pk : Val) :
    Steps (LazyFrom S x) (get_symmetric_key S x >>= fun e => do
      let k ← e.key
      let raw ← decrypt_asymmetrical S k
      let key ← encrypt_asymmetrical S raw recipient_pk
      let e ← get_symmetric_key S x
      let nonce ← e.nonce
      pure (Val.obj key nonce)) :=
  steps_bind S x (steps_get_symmetric_key S x) fun _ =>
    steps_bind S x (steps_key S x _) fun _ =>
      steps_bind S x (steps_decrypt_asymmetrical S x _) fun _ =>
        steps_bind S x (steps_encrypt_asymmetrical S x _ _) fun _ =>
          steps_bind S x (steps_get_symmetric_key S x) fun _ =>
            steps_bind S x (steps_nonce S x _) fun _ => steps_pure S x _

/-- Whatever its outcome, `encrypt` leaves behind at most a lazy initialisation
for the identifier it resolved. -/
theorem lazyInit_encrypt (a b : Val) (w : World) :
    LazyInit S (resolve (effectiveId a b) w.global) w (encrypt S a b w).2 := by
  unfold encrypt effectiveId
  by_cases hb : b = .undefined
  · simp only [hb, if_true]
    rw [run_bind, run_get_pad]
    exact lazyInit_of_steps S _ _ (steps_encrypt_tail S _ _) w
  · simp only [hb, if_false]
    rw [run_bind, run_get_pad]
    exact lazyInit_of_steps S _ _ (steps_encrypt_tail S _ _) w

/-- Whatever its outcome, `decrypt` leaves behind at most a lazy initialisation
for the identifier it resolved. -/
theorem lazyInit_decrypt (a b : Val) (w : World) :
    LazyInit S (resolve (effectiveId a b) w.global) w (decrypt S a b w).2 := by
  unfold decrypt effectiveId
  by_cases hb : b = .undefined
  · simp only [hb, if_true]
    rw [run_bind, run_get_pad]
    exact lazyInit_of_steps S _ _ (steps_decrypt_tail S _ _) w
  · simp only [hb, if_false]
    rw [run_bind, run_get_pad]
    exact lazyInit_of_steps S _ _ (steps_decrypt_tail S _ _) w

/-- Whatever its outcome, `prepare_symmkey` leaves behind at most a lazy
initialisation for the identifier it resolved. -/
theorem lazyInit_prepare_symmkey (a b : Val) (w : World) :
    LazyInit S (resolve (effectiveId a b) w.global) w (prepare_symmkey S a b w).2 := by
  unfold prepare_symmkey effectiveId
  by_cases hb : b = .undefined
  · simp only [hb, if_true]
    rw [run_bind, run_get_pad]
    exact lazyInit_of_steps S _ _ (steps_prepare_tail S _ _) w
  · simp only [hb, if_false]
    rw [run_bind, run_get_pad]
    exact lazyInit_of_steps S _ _ (steps_prepare_tail S _ _) w

/-- The call `publickey` generates the identity when none is cached and changes
nothing else. -/
theorem keysGrow_publickey (w : World) :
    KeysGrow S w.global._keys (publickey S w).2.global._keys ∧
    (publickey S w).2.global._symkeys = w.global._symkeys ∧
    (publickey S w).2.global._pad = w.global._pad ∧
    ∃ v, (publickey S w).1 = .ok v := by
  unfold publickey
  rw [run_bind, run_get_keys]
  cases hk : w.global._keys with
  | some k => exact ⟨Or.inl hk, rfl, rfl, _, rfl⟩
  | none => exact ⟨Or.inr ⟨rfl, _, rfl⟩, rfl, rfl, _, rfl⟩

theorem get_symmetric_key_resolve (p : Val) (w : World) :
    get_symmetric_key S p w =
      get_symmetric_key S (resolve p w.global) (w.setPad (resolve p w.global)) := by
  unfold get_symmetric_key
  rw [run_bind, run_bind, run_get_pad, run_get_pad, resolve_setPad, setPad_setPad]

/-- Whatever its outcome, `get_symmetric_key` leaves behind at most a lazy
initialisation for the identifier it resolved. -/
theorem lazyInit_get_symmetric_key (p : Val) (w : World) :
    LazyInit S (resolve p w.global) w (get_symmetric_key S p w).2 := by
  rw [get_symmetric_key_resolve]
  exact lazyInit_of_steps S _ _ (steps_get_symmetric_key S _) w

/-- The effect of `store_symmkey` in full. -/
theorem run_store_symmkey_general (a b : Val) (w : World) :
    store_symmkey a b w =
      (.ok .undefined,
       { global := { _keys := w.global._keys,
                     _symkeys := some ((w.global._symkeys.getD Registry.empty).set
                        (toPropertyKey (resolve (effectiveId a b) w.global))
                        (effectivePayload a b)),
                     _pad := resolve (effectiveId a b) w.global },
         entropy := w.entropy }) := by
  unfold store_symmkey effectiveId effectivePayload
  by_cases hb : b = .undefined
  · simp only [hb, if_true, run_bind, run_get_pad, run_create_symkeys_var, run_modifyGlobal,
      run_pure, World.setPad]
  · simp only [hb, if_false, run_bind, run_get_pad, run_create_symkeys_var, run_modifyGlobal,
      run_pure, World.setPad]

/-- Every call but `store_symmkey` leaves behind at most a lazy initialisation
for the identifier it resolved. -/
theorem lazyInit_call (c : Call) (hc : c.isStore = false) (w : World) :
    LazyInit S (c.resolved w.global) w (c.run S w).2 := by
  cases c with
  | publickey =>
    obtain ⟨hk, hr, hp, _⟩ := keysGrow_publickey S w
    exact ⟨hk, Or.inl hr, hp⟩
  | prepare_symmkey a b => exact lazyInit_prepare_symmkey S a b w
  | store_symmkey a b => exact absurd hc (by simp [Call.isStore])
  | encrypt a b => exact lazyInit_encrypt S a b w
  | decrypt a b => exact lazyInit_decrypt S a b w

/-- An own entry survives a lazy initialisation. -/
theorem RegistryGrows.getOwn {key d : String} {r : Registry} {o' : Option Registry} {v : Val}
    (h : RegistryGrows key (some r) o') (hv : r.getOwn d = some v) :
    ∃ r', o' = some r' ∧ r'.getOwn d = some v ∧ r'.get d = .val v ∧ r'.proto = r.proto := by
  have hget : r.get d = .val v := by simp [Registry.get, hv]
  rcases h with rfl | ⟨h, _⟩ | ⟨hn, v', rfl⟩
  · exact ⟨r, rfl, hv, hget, rfl⟩
  · exact absurd h (by simp)
  · rw [Option.getD_some] at hn ⊢
    have hd : d ≠ key := by
      intro hdk
      subst hdk
      simp [Registry.has, hv] at hn
    have hown : (r.set key v').getOwn d = some v := by
      rw [Registry.getOwn_set_ne r key d v' hd]; exact hv
    refine ⟨_, rfl, hown, by simp [Registry.get, hown], ?_⟩
    rw [Registry.set_of_not_has r key v' hn]

/-- With an entry under the resolved name, a lazy initialisation leaves the
registry as it is. -/
theorem RegistryGrows.eq_of_has {key : String} {r : Registry} {o' : Option Registry}
    (h : RegistryGrows key (some r) o') (hh : r.has key = true) : o' = some r := by
  rcases h with rfl | ⟨h, _⟩ | ⟨hn, _, _⟩
  · rfl
  · exact absurd h (by simp)
  · rw [Option.getD_some, hh] at hn
    exact absurd hn (by simp)

theorem resolve_effectiveId_getD (a b : Val) (g : Global) :
    resolve (effectiveId a b) g =
      (if b = .undefined then none else if a.neNull then some a else none).getD g._pad := by
  unfold effectiveId resolve
  by_cases hb : b = .undefined
  · rw [if_pos hb, if_pos hb]; rfl
  · rw [if_neg hb, if_neg hb]
    cases ha : a.neNull
    · rfl
    · rfl

theorem resolve_effectiveId (c : Call) (g : Global) :
    c.resolved g = c.explicitId.getD g._pad := by
  cases c with
  | publickey => rfl
  | prepare_symmkey a b => exact resolve_effectiveId_getD a b g
  | store_symmkey a b => exact resolve_effectiveId_getD a b g
  | encrypt a b => exact resolve_effectiveId_getD a b g
  | decrypt a b => exact resolve_effectiveId_getD a b g

/-- The pointer after any call is the identifier the call resolved. -/
theorem pad_after_call (c : Call) (w : World) :
    (c.run S w).2.global._pad = c.resolved w.global := by
  cases hc : c.isStore with
  | false => exact (lazyInit_call S c hc w).2.2
  | true =>
    cases c with
    | store_symmkey a b =>
      simp only [Call.run, Call.resolved]
      rw [run_store_symmkey_general]
    | publickey => exact absurd hc (by simp [Call.isStore])
    | prepare_symmkey a b => exact absurd hc (by simp [Call.isStore])
    | encrypt a b => exact absurd hc (by simp [Call.isStore])
    | decrypt a b => exact absurd hc (by simp [Call.isStore])

end StepsRules

/-! ## Failure, stability of entries, the pointer -/

/-- C4, as stated, fails: in a fresh process `decrypt("pad1", "zzz")` throws
the authentication error of the secret box, and the state it leaves is not the
state before: the pointer is on `pad1`, an identity has been generated and an
entry for `pad1` has been created. -/
theorem atomicity_counterexample :
    (decrypt toySodium (.str "pad1") (.str "zzz") (World.fresh 0)).1
      = .error .authenticationError ∧
    (World.fresh 0).global = ⟨none, none, .undefined⟩ ∧
    (decrypt toySodium (.str "pad1") (.str "zzz") (World.fresh 0)).2.global =
      ⟨some ⟨"Pc", "Sc"⟩,
       some ⟨[("pad1", .obj (.str "#cdbbbbbbbbbbbbbbbbbbbbbbbbbbbbbbbb")
                            (.str "aaaaaaaaaaaaaaaaaaaaaaaa"))], .objectPrototype⟩,
       .str "pad1"⟩ ∧
    (decrypt toySodium (.str "pad1") (.str "zzz") (World.fresh 0)).2.global
      ≠ (World.fresh 0).global := by
  decide

/-- With the identity cached, an entry under the resolved name and the pointer
already on it, a lazy initialisation changes nothing. -/
theorem LazyInit.global_eq {Bytes : Type} {S : Sodium Bytes} {x : Val} {w w' : World}
    (h : LazyInit S x w w') (k : Keys) (r : Registry) (hk : w.global._keys = some k)
    (hr : w.global._symkeys = some r) (hh : r.has (toPropertyKey x) = true)
    (hp : w.global._pad = x) : w'.global = w.global := by
  obtain ⟨h1, h2, h3⟩ := h
  have e1 : w'.global._keys = w.global._keys := by
    rcases h1 with h1 | ⟨h1, _⟩
    · exact h1
    · rw [hk] at h1; exact absurd h1 (by simp)
  have e2 : w'.global._symkeys = w.global._symkeys := by
    rw [hr] at h2 ⊢
    exact h2.eq_of_has hh
  have e3 : w'.global._pad = w.global._pad := h3.trans hp.symm
  cases hg' : w'.global with
  | mk a b c =>
    cases hg : w.global with
    | mk a' b' c' =>
      rw [hg'] at e1 e2 e3
      rw [hg] at e1 e2 e3
      simp only at e1 e2 e3
      rw [e1, e2, e3]

/-- C4, amended. When a call of `publickey`, `prepare_symmkey`, `encrypt` or
`decrypt` fails, the state it leaves differs from the state before at most by
the lazy initialisation done before the failure: the pointer is the identifier
the call resolved (the explicit one when given, else the pointer as it was); the
identity is as before, or was generated when none was cached; the registry is as
before, or was created empty, or was extended by one assignment under the
resolved name when that name was not in it. In particular, when the identity was
cached, the resolved name had an entry and the pointer was already on the
resolved identifier, the state is exactly as before. -/
theorem failure_leaves_lazy_init {Bytes : Type} (S : Sodium Bytes) (c : Call)
    (hc : c.isStore = false) (w : World) (e : Err) (_hfail : (c.run S w).1 = .error e) :
    LazyInit S (c.resolved w.global) w (c.run S w).2 ∧
    (∀ k r, w.global._keys = some k → w.global._symkeys = some r →
      r.has (toPropertyKey (c.resolved w.global)) = true →
      w.global._pad = c.resolved w.global → (c.run S w).2.global = w.global) :=
  ⟨lazyInit_call S c hc w, fun k r hk hr hh hp =>
    (lazyInit_call S c hc w).global_eq k r hk hr hh hp⟩

theorem failure_leaves_lazy_init_witness :
    (Call.decrypt (.str "pad1") (.str "zzz")).isStore = false ∧
    ((Call.decrypt (.str "pad1") (.str "zzz")).run toySodium (World.fresh 0)).1
      = .error .authenticationError ∧
    LazyInit toySodium ((Call.decrypt (.str "pad1") (.str "zzz")).resolved (World.fresh 0).global)
      (World.fresh 0) ((Call.decrypt (.str "pad1") (.str "zzz")).run toySodium (World.fresh 0)).2 ∧
    (∀ k r, (World.fresh 0).global._keys = some k → (World.fresh 0).global._symkeys = some r →
      r.has (toPropertyKey ((Call.decrypt (.str "pad1") (.str "zzz")).resolved
        (World.fresh 0).global)) = true →
      (World.fresh 0).global._pad
        = (Call.decrypt (.str "pad1") (.str "zzz")).resolved (World.fresh 0).global →
      ((Call.decrypt (.str "pad1") (.str "zzz")).run toySodium (World.fresh 0)).2.global
        = (World.fresh 0).global) :=
  ⟨rfl, by decide,
    failure_leaves_lazy_init toySodium (.decrypt (.str "pad1") (.str "zzz")) rfl (World.fresh 0)
      .authenticationError (by decide)⟩

/-- C5. Entry stability. Let document `d` have the stored entry `v`. Then
(1) after any call other than a `store_symmkey` resolved to `d`, returning or
throwing, the entry stored and read under `d` is still `v`; (2) the same holds
after `get_symmetric_key` on any identifier; (3) `get_symmetric_key(d)` returns
`v`, and returns `v` again when repeated; (4) when the document a
`prepare_symmkey` resolves has an entry, the registry after the call is the
registry before it: the resealed key is not written. -/
theorem entry_stability {Bytes : Type} (S : Sodium Bytes) (w : World) (r : Registry)
    (d : String) (v : Val) (hr : w.global._symkeys = some r) (hv : r.getOwn d = some v) :
    (∀ c : Call, (c.isStore = false ∨ toPropertyKey (c.resolved w.global) ≠ d) →
      ∃ r', (c.run S w).2.global._symkeys = some r' ∧ r'.getOwn d = some v ∧
        r'.get d = .val v) ∧
    (∀ p : Val, ∃ r', (get_symmetric_key S p w).2.global._symkeys = some r' ∧
      r'.getOwn d = some v ∧ r'.get d = .val v) ∧
    ((get_symmetric_key S (.str d) w).1 = .ok (.val v) ∧
      (get_symmetric_key S (.str d) (get_symmetric_key S (.str d) w).2).1 = .ok (.val v)) ∧
    (∀ a b : Val, r.has (toPropertyKey (resolve (effectiveId a b) w.global)) = true →
      (prepare_symmkey S a b w).2.global._symkeys = some r) := by
  have hget : r.get d = .val v := by simp [Registry.get, hv]
  have hhas : r.has d = true := by simp [Registry.has, hv]
  refine ⟨?_, ?_, ?_, ?_⟩
  · intro c hc
    cases hs : c.isStore with
    | false =>
      have h := (lazyInit_call S c hs w).2.1
      rw [hr] at h
      obtain ⟨r', h1, h2, h3, _⟩ := h.getOwn hv
      exact ⟨r', h1, h2, h3⟩
    | true =>
      rcases hc with hc | hc
      · rw [hs] at hc; exact absurd hc (by simp)
      · cases c with
        | store_symmkey a b =>
          simp only [Call.run, Call.resolved] at hc ⊢
          rw [run_store_symmkey_general, hr, Option.getD_some]
          have hown := Registry.getOwn_set_ne r _ d (effectivePayload a b) (Ne.symm hc)
          rw [hv] at hown
          exact ⟨_, rfl, hown, by simp [Registry.get, hown]⟩
        | publickey => exact absurd hs (by simp [Call.isStore])
        | prepare_symmkey a b => exact absurd hs (by simp [Call.isStore])
        | encrypt a b => exact absurd hs (by simp [Call.isStore])
        | decrypt a b => exact absurd hs (by simp [Call.isStore])
  · intro p
    have h := (lazyInit_get_symmetric_key S p w).2.1
    rw [hr] at h
    obtain ⟨r', h1, h2, h3, _⟩ := h.getOwn hv
    exact ⟨r', h1, h2, h3⟩
  · have h1 := run_get_symmetric_key_has S (.str d) w r hr hhas
    have h2 := run_get_symmetric_key_has S (.str d) (w.setPad (.str d)) r hr hhas
    have hres : ∀ g : Global, resolve (.str d) g = .str d := fun _ => rfl
    simp only [hres, toPropertyKey] at h1 h2
    rw [h1, h2]
    exact ⟨by rw [hget], by rw [hget]⟩
  · intro a b hh
    have h := (lazyInit_prepare_symmkey S a b w).2.1
    rw [hr] at h
    exact h.eq_of_has hh

theorem entry_stability_witness :
    (∀ c : Call, (c.isStore = false ∨ toPropertyKey (c.resolved toyWorld.global) ≠ "pad1") →
      ∃ r', (c.run toySodium toyWorld).2.global._symkeys = some r' ∧
        r'.getOwn "pad1" = some (.obj (.str "#cdbbbbbbbbbbbbbbbbbbbbbbbbbbbbbbbb")
          (.str "aaaaaaaaaaaaaaaaaaaaaaaa")) ∧
        r'.get "pad1" = .val (.obj (.str "#cdbbbbbbbbbbbbbbbbbbbbbbbbbbbbbbbb")
          (.str "aaaaaaaaaaaaaaaaaaaaaaaa"))) ∧
    (∀ p : Val, ∃ r', (get_symmetric_key toySodium p toyWorld).2.global._symkeys = some r' ∧
      r'.getOwn "pad1" = some (.obj (.str "#cdbbbbbbbbbbbbbbbbbbbbbbbbbbbbbbbb")
          (.str "aaaaaaaaaaaaaaaaaaaaaaaa")) ∧
      r'.get "pad1" = .val (.obj (.str "#cdbbbbbbbbbbbbbbbbbbbbbbbbbbbbbbbb")
          (.str "aaaaaaaaaaaaaaaaaaaaaaaa"))) ∧
    ((get_symmetric_key toySodium (.str "pad1") toyWorld).1 =
        .ok (.val (.obj (.str "#cdbbbbbbbbbbbbbbbbbbbbbbbbbbbbbbbb")
          (.str "aaaaaaaaaaaaaaaaaaaaaaaa"))) ∧
      (get_symmetric_key toySodium (.str "pad1")
        (get_symmetric_key toySodium (.str "pad1") toyWorld).2).1 =
        .ok (.val (.obj (.str "#cdbbbbbbbbbbbbbbbbbbbbbbbbbbbbbbbb")
          (.str "aaaaaaaaaaaaaaaaaaaaaaaa")))) ∧
    (∀ a b : Val,
      Registry.has ⟨[("pad1", .obj (.str "#cdbbbbbbbbbbbbbbbbbbbbbbbbbbbbbbbb")
          (.str "aaaaaaaaaaaaaaaaaaaaaaaa"))], .objectPrototype⟩
        (toPropertyKey (resolve (effectiveId a b) toyWorld.global)) = true →
      (prepare_symmkey toySodium a b toyWorld).2.global._symkeys =
        some ⟨[("pad1", .obj (.str "#cdbbbbbbbbbbbbbbbbbbbbbbbbbbbbbbbb")
          (.str "aaaaaaaaaaaaaaaaaaaaaaaa"))], .objectPrototype⟩) :=
  entry_stability toySodium toyWorld
    ⟨[("pad1", .obj (.str "#cdbbbbbbbbbbbbbbbbbbbbbbbbbbbbbbbb")
      (.str "aaaaaaaaaaaaaaaaaaaaaaaa"))], .objectPrototype⟩
    "pad1" (.obj (.str "#cdbbbbbbbbbbbbbbbbbbbbbbbbbbbbbbbb") (.str "aaaaaaaaaaaaaaaaaaaaaaaa"))
    rfl (by decide)

theorem specPointer_cons (c : Call) (cs : List Call) (p0 : Val) :
    specPointer (c :: cs) p0 = specPointer cs (c.explicitId.getD p0) := by
  unfold specPointer
  rw [List.reverse_cons, List.findSome?_append]
  cases h : List.findSome? Call.explicitId cs.reverse with
  | some x => simp
  | none => cases hc : c.explicitId <;> simp [List.findSome?, hc]

theorem pad_after_runCalls {Bytes : Type} (S : Sodium Bytes) (cs : List Call) (w : World) :
    (runCalls S cs w).global._pad = specPointer cs w.global._pad := by
  induction cs generalizing w with
  | nil => rfl
  | cons c cs ih =>
    rw [runCalls, ih, specPointer_cons, pad_after_call, resolve_effectiveId]

/-- C6. Active-pad pointer: after any sequence of calls of the interface, run
from any world one after the other whether they return or throw, the pointer is
the explicit identifier of the most recent call that was given one, and is the
initial pointer (unset, in a fresh process) when no call was given one; a call
that omits the identifier never changes the pointer. -/
theorem active_pad_pointer {Bytes : Type} (S : Sodium Bytes) (cs : List Call) (w : World) :
    (runCalls S cs w).global._pad = specPointer cs w.global._pad ∧
    ((∀ c ∈ cs, c.explicitId = none) → ∀ seed,
      (runCalls S cs (World.fresh seed)).global._pad = .undefined) ∧
    (∀ c : Call, c.explicitId = none → (c.run S w).2.global._pad = w.global._pad) := by
  refine ⟨pad_after_runCalls S cs w, ?_, ?_⟩
  · intro h seed
    rw [pad_after_runCalls]
    have : List.findSome? Call.explicitId cs.reverse = none := by
      rw [List.findSome?_eq_none_iff]
      intro c hc
      exact h c (List.mem_reverse.mp hc)
    simp only [specPointer, this]
    rfl
  · intro c hc
    rw [pad_after_call, resolve_effectiveId, hc]
    rfl

/-! ## Storing a received key -/

/-- Away from the name `__proto__`, `store_symmkey(d, e)` returns normally, the
entry stored and read under `d` afterwards is `e`, a second store replaces it,
and the prototype, every other own entry, every other read and the identity are
as before. -/
theorem store_symmkey_overwrites (w : World) (d : String) (e : Val)
    (hd : d ≠ "__proto__") (he : e ≠ .undefined) :
    (store_symmkey (.str d) e w).1 = .ok .undefined ∧
    (store_symmkey (.str d) e w).2.global._keys = w.global._keys ∧
    ∃ r', (store_symmkey (.str d) e w).2.global._symkeys = some r' ∧
      r'.getOwn d = some e ∧ r'.get d = .val e ∧
      r'.proto = (w.global._symkeys.getD Registry.empty).proto ∧
      (∀ d', d' ≠ d → r'.getOwn d' = (w.global._symkeys.getD Registry.empty).getOwn d') ∧
      (∀ d', d' ≠ d → r'.get d' = (w.global._symkeys.getD Registry.empty).get d') := by
  rw [run_store_symmkey (.str d) e he w]
  have hres : resolve (.str d) w.global = .str d := rfl
  simp only [hres, toPropertyKey]
  obtain ⟨h1, h2⟩ := Registry.set_of_ne_proto (w.global._symkeys.getD Registry.empty) d e hd
  refine ⟨trivial, trivial, _, rfl, h1, by simp [Registry.get, h1], h2, ?_, ?_⟩
  · intro d' hd'
    exact Registry.getOwn_set_ne _ _ _ _ hd'
  · intro d' hd'
    simp only [Registry.get, Registry.getOwn_set_ne _ _ _ _ hd', h2]

/-- C10, evaluated where the code departs from it: the identifier `__proto__`.
On the world `toyWorld` (one entry, for `pad1`), `store_symmkey("__proto__", "abc")`
returns normally but stores nothing: the registry is as before and a read of
`__proto__` yields the built-in prototype object, not `"abc"`. And
`store_symmkey("__proto__", {key: "k", nonce: "n"})` stores no own entry either:
it replaces the prototype of the registry object, after which the documents
`key` and `nonce`, which had no entry, are found by the `in` test and read as
`"k"` and `"n"`. -/
theorem store_symmkey_proto_divergence :
    (store_symmkey (.str "__proto__") (.str "abc") toyWorld).1 = .ok .undefined ∧
    (store_symmkey (.str "__proto__") (.str "abc") toyWorld).2.global._symkeys
      = toyWorld.global._symkeys ∧
    (toyWorld.global._symkeys.map fun r => r.get "__proto__") = some (.native "__proto__") ∧
    (store_symmkey (.str "__proto__") (.obj (.str "k") (.str "n")) toyWorld).2.global._symkeys
      = some ⟨[("pad1", .obj (.str "#cdbbbbbbbbbbbbbbbbbbbbbbbbbbbbbbbb")
                  (.str "aaaaaaaaaaaaaaaaaaaaaaaa"))], .object (.str "k") (.str "n")⟩ ∧
    (toyWorld.global._symkeys.map fun r => (r.has "key", r.has "nonce"))
      = some (false, false) ∧
    ((store_symmkey (.str "__proto__") (.obj (.str "k") (.str "n")) toyWorld).2.global._symkeys.map
      fun r => (r.has "key", r.get "key", r.has "nonce", r.get "nonce"))
      = some (true, .val (.str "k"), true, .val (.str "n")) := by
  decide

/-! ## Calls without an identifier while the pointer is unset -/

/-- C3, as stated, fails: in a fresh process (pointer never set) the calls
`store_symmkey(e)` and `encrypt(m)` with the identifier omitted do not fail;
they return normally. -/
theorem no_active_document_counterexample :
    (World.fresh 0).global._pad = .undefined ∧
    (store_symmkey (.obj (.str "k") (.str "n")) .undefined (World.fresh 0)).1 = .ok .undefined ∧
    (encrypt toySodium (.str "hello") .undefined (World.fresh 0)).1 =
      .ok (.str "@aaaaaaaaaaaaaaaaaaaaaaaabbbbbbbbbbbbbbbbbbbbbbbbbbbbbbbbhello") := by
  decide

/-- C3, amended. With the pointer unset, a call that omits the identifier is not
rejected: it works on the property name `undefined` and leaves the pointer
unset. `store_symmkey(x)` returns normally having assigned `x` under `undefined`.
After `encrypt(x)`, `decrypt(x)` and `prepare_symmkey(x)`, whatever their outcome,
the state differs at most by a lazy initialisation for that name. Under the
provider laws, when the name `undefined` has no entry or a self-wrapped one,
`encrypt(m)` returns a ciphertext which `decrypt(c)`, identifier omitted again,
turns back into `m`. -/
theorem unset_pointer_uses_undefined_slot {Bytes : Type} (S : Sodium Bytes) (w : World)
    (hp : w.global._pad = .undefined) (x : Val) :
    store_symmkey x .undefined w =
      (.ok .undefined,
       { global := { _keys := w.global._keys,
                     _symkeys := some ((w.global._symkeys.getD Registry.empty).set "undefined" x),
                     _pad := .undefined },
         entropy := w.entropy }) ∧
    LazyInit S .undefined w (encrypt S x .undefined w).2 ∧
    LazyInit S .undefined w (decrypt S x .undefined w).2 ∧
    LazyInit S .undefined w (prepare_symmkey S x .undefined w).2 ∧
    (S.Lawful → IdentityOk S w.global →
      (Absent w.global "undefined" ∨ SelfWrapped S w.global "undefined") →
      ∀ m, x = .str m →
        ∃ c, (encrypt S x .undefined w).1 = .ok (.str c) ∧
          (decrypt S (.str c) .undefined (encrypt S x .undefined w).2).1 = .ok (.str m)) := by
  have hres : resolve (effectiveId x .undefined) w.global = .undefined := by
    simp only [effectiveId, if_true, resolve_null, hp]
  have hnull : resolve .null w.global = .undefined := by rw [resolve_null, hp]
  refine ⟨?_, ?_, ?_, ?_, ?_⟩
  · rw [run_store_symmkey_general, hres]
    simp only [effectivePayload, if_true, toPropertyKey]
  · have h := lazyInit_encrypt S x .undefined w
    rw [hres] at h; exact h
  · have h := lazyInit_decrypt S x .undefined w
    rw [hres] at h; exact h
  · have h := lazyInit_prepare_symmkey S x .undefined w
    rw [hres] at h; exact h
  · intro hS hid h m hx
    subst hx
    have hone : ∀ (y : Val) (w' : World), y ≠ .undefined →
        encrypt S y .undefined w' = encrypt S .null y w' ∧
        decrypt S y .undefined w' = decrypt S .null y w' := by
      intro y w' hy
      constructor
      · unfold encrypt
        simp only [hy, if_true, if_false]
      · unfold decrypt
        simp only [hy, if_true, if_false]
    rw [(hone (.str m) w (by simp)).1]
    obtain ⟨raw, nb, c, hc, hC, hsw, hpad⟩ := encrypt_establishes S hS .null m w hid
      (by rw [hnull]; exact h)
    rw [hnull] at hsw hpad
    refine ⟨S.to_base64 c, hC, ?_⟩
    rw [(hone _ _ (by simp)).2]
    have hnull' : resolve .null (encrypt S .null (.str m) w).2.global = .undefined := by
      rw [resolve_null, hpad]
    rw [decrypt_of_selfWrapped S hS .null m _ raw nb c (by rw [hnull']; exact hsw) hc]

theorem unset_pointer_uses_undefined_slot_witness :
    (World.fresh 0).global._pad = .undefined ∧
    store_symmkey (.str "hello") .undefined (World.fresh 0) =
      (.ok .undefined,
       { global := { _keys := (World.fresh 0).global._keys,
                     _symkeys := some (((World.fresh 0).global._symkeys.getD Registry.empty).set
                        "undefined" (.str "hello")),
                     _pad := .undefined },
         entropy := (World.fresh 0).entropy }) ∧
    LazyInit toySodium .undefined (World.fresh 0)
      (encrypt toySodium (.str "hello") .undefined (World.fresh 0)).2 ∧
    LazyInit toySodium .undefined (World.fresh 0)
      (decrypt toySodium (.str "hello") .undefined (World.fresh 0)).2 ∧
    LazyInit toySodium .undefined (World.fresh 0)
      (prepare_symmkey toySodium (.str "hello") .undefined (World.fresh 0)).2 ∧
    Absent (World.fresh 0).global "undefined" ∧
    ∃ c, (encrypt toySodium (.str "hello") .undefined (World.fresh 0)).1 = .ok (.str c) ∧
      (decrypt toySodium (.str c) .undefined
        (encrypt toySodium (.str "hello") .undefined (World.fresh 0)).2).1
          = .ok (.str "hello") :=
  ⟨rfl,
    (unset_pointer_uses_undefined_slot toySodium (World.fresh 0) rfl (.str "hello")).1,
    (unset_pointer_uses_undefined_slot toySodium (World.fresh 0) rfl (.str "hello")).2.1,
    (unset_pointer_uses_undefined_slot toySodium (World.fresh 0) rfl (.str "hello")).2.2.1,
    (unset_pointer_uses_undefined_slot toySodium (World.fresh 0) rfl (.str "hello")).2.2.2.1,
    by decide,
    (unset_pointer_uses_undefined_slot toySodium (World.fresh 0) rfl (.str "hello")).2.2.2.2
      toySodium_lawful (IdentityOk.fresh toySodium 0) (Or.inl (by decide)) "hello" rfl⟩

/-! ## The identity -/

/-- No call replaces a cached identity. -/
theorem keys_after_call {Bytes : Type} (S : Sodium Bytes) (c : Call) (w : World) (k : Keys)
    (hk : w.global._keys = some k) : (c.run S w).2.global._keys = some k := by
  cases hc : c.isStore with
  | false =>
    rcases (lazyInit_call S c hc w).1 with h | ⟨h, _⟩
    · exact h.trans hk
    · rw [hk] at h; exact absurd h (by simp)
  | true =>
    cases c with
    | store_symmkey a b =>
      simp only [Call.run]
      rw [run_store_symmkey_general]
      exact hk
    | publickey => exact absurd hc (by simp [Call.isStore])
    | prepare_symmkey a b => exact absurd hc (by simp [Call.isStore])
    | encrypt a b => exact absurd hc (by simp [Call.isStore])
    | decrypt a b => exact absurd hc (by simp [Call.isStore])

theorem keys_after_runCalls {Bytes : Type} (S : Sodium Bytes) (cs : List Call) (w : World)
    (k : Keys) (hk : w.global._keys = some k) : (runCalls S cs w).global._keys = some k := by
  induction cs generalizing w with
  | nil => exact hk
  | cons c cs ih => exact ih _ (keys_after_call S c w k hk)

theorem run_publickey_cached {Bytes : Type} (S : Sodium Bytes) (w : World) (k : Keys)
    (hk : w.global._keys = some k) : publickey S w = (.ok (.str k.pk), w) := by
  unfold publickey
  rw [run_bind, run_get_keys_some S w k hk]
  rfl

/-- C14. Identity caching. In every state: (1) with an identity cached,
`get_keys` returns it and changes nothing (the keypair generator is not run, no
entropy is consumed), and `publickey` returns its public half and changes
nothing; (2) with none cached, `get_keys` runs the generator once and caches
the pair; (3) `publickey` returns the public half `pk` (a string, never `sk`)
of the identity it leaves cached; (4) no call of the interface replaces a
cached identity; (5) after a first `publickey`, and after any calls whatever
in between, `publickey` returns the same public key and leaves the state
unchanged. -/
theorem identity_caching {Bytes : Type} (S : Sodium Bytes) (w : World) :
    (∀ k, w.global._keys = some k →
      get_keys S w = (.ok k, w) ∧ publickey S w = (.ok (.str k.pk), w)) ∧
    (w.global._keys = none →
      get_keys S w = (.ok (S.keysAt w.entropy),
        { global := { w.global with _keys := some (S.keysAt w.entropy) },
          entropy := w.entropy + 1 })) ∧
    (∃ k, (publickey S w).1 = .ok (.str k.pk) ∧ (publickey S w).2.global._keys = some k) ∧
    (∀ (k : Keys) (c : Call), w.global._keys = some k →
      (c.run S w).2.global._keys = some k) ∧
    (∀ cs : List Call,
      publickey S (runCalls S cs (publickey S w).2) =
        ((publickey S w).1, runCalls S cs (publickey S w).2)) := by
  have h3 : ∃ k, (publickey S w).1 = .ok (.str k.pk) ∧
      (publickey S w).2.global._keys = some k := by
    unfold publickey
    rw [run_bind, run_get_keys]
    cases hk : w.global._keys with
    | some k => exact ⟨k, rfl, hk⟩
    | none => exact ⟨S.keysAt w.entropy, rfl, rfl⟩
  refine ⟨fun k hk => ⟨run_get_keys_some S w k hk, run_publickey_cached S w k hk⟩,
    fun hk => run_get_keys_none S w hk, h3, fun k c hk => keys_after_call S c w k hk, ?_⟩
  intro cs
  obtain ⟨k, h1, h2⟩ := h3
  rw [run_publickey_cached S _ k (keys_after_runCalls S cs _ k h2), h1]

/-! ## Names inherited from `Object.prototype` -/

/-- C15, evaluated where the code departs from it. In a fresh process nothing
is stored under `constructor`, `toString` or `__proto__`, yet for each of them
`get_symmetric_key` draws no nonce and no key (the entropy position stays 0),
generates no identity, stores nothing (the registry is the empty object it
just created) and returns the built-in object inherited under that name, which
has neither a `key` nor a `nonce`; `encrypt("constructor", "hello")` then
throws a `TypeError`. For a name that is not inherited (`pad1`) the entry is
created. -/
theorem inherited_names_divergence :
    (Registry.empty.getOwn "constructor", Registry.empty.getOwn "toString",
      Registry.empty.getOwn "__proto__") = (none, none, none) ∧
    get_symmetric_key toySodium (.str "constructor") (World.fresh 0) =
      (.ok (.native "constructor"),
       ⟨⟨none, some Registry.empty, .str "constructor"⟩, 0⟩) ∧
    get_symmetric_key toySodium (.str "toString") (World.fresh 0) =
      (.ok (.native "toString"), ⟨⟨none, some Registry.empty, .str "toString"⟩, 0⟩) ∧
    get_symmetric_key toySodium (.str "__proto__") (World.fresh 0) =
      (.ok (.native "__proto__"), ⟨⟨none, some Registry.empty, .str "__proto__"⟩, 0⟩) ∧
    (Slot.key (.native "constructor") (World.fresh 0)).1 = .ok .undefined ∧
    (Slot.nonce (.native "constructor") (World.fresh 0)).1 = .ok .undefined ∧
    (encrypt toySodium (.str "constructor") (.str "hello") (World.fresh 0)).1
      = .error .typeError ∧
    (get_symmetric_key toySodium (.str "pad1") (World.fresh 0)).1 =
      .ok (.val (.obj (.str "#cdbbbbbbbbbbbbbbbbbbbbbbbbbbbbbbbb")
        (.str "aaaaaaaaaaaaaaaaaaaaaaaa"))) := by
  decide

/-! ## Unseal failure -/

theorem run_decrypt_asymmetrical_rejects {Bytes : Type} (S : Sodium Bytes) (w : World) (k : Val)
    (h : Rejects S (localKeys S w) k) :
    (decrypt_asymmetrical S k w).1 = .error .unsealError := by
  obtain ⟨s, kb, pkb, skb, hk, h1, h2, h3, h4⟩ := h
  subst hk
  unfold decrypt_asymmetrical
  rw [run_bind, run_get_keys]
  unfold localKeys at h2 h3
  cases hk : w.global._keys with
  | some ks =>
    rw [hk, Option.getD_some] at h2 h3
    simp only [run_bind, run_from_base64 S _ _ h1, run_from_base64 S _ _ h2,
      run_from_base64 S _ _ h3, h4, run_ofOption_none]
  | none =>
    rw [hk, Option.getD_none] at h2 h3
    simp only [run_bind, run_from_base64 S _ _ h1, run_from_base64 S _ _ h2,
      run_from_base64 S _ _ h3, h4, run_ofOption_none]

/-- C12. Unseal failure. Let the entry read under `d` be `{key: k, nonce: n}`
with `k` a wrapped key that the open-sealed primitive rejects under the local
keypair. Then `prepare_symmkey(d, r)` fails with the unseal error; `encrypt(d, m)`
fails, with the unseal error whenever the entry's nonce decodes; `decrypt(d, c)`
fails, with the unseal error whenever the ciphertext and the entry's nonce
decode (these are decoded before the key is opened). None returns a value. -/
theorem unseal_failure {Bytes : Type} (S : Sodium Bytes) (w : World) (d : String)
    (r : Registry) (k n : Val) (hr : w.global._symkeys = some r)
    (hget : r.get d = .val (.obj k n)) (hrej : Rejects S (localKeys S w) k) :
    (∀ rpk : Val, rpk ≠ .undefined →
      (prepare_symmkey S (.str d) rpk w).1 = .error .unsealError) ∧
    (∀ m : Val, m ≠ .undefined →
      (∃ e, (encrypt S (.str d) m w).1 = .error e) ∧
      (∀ ns nb, n = .str ns → S.from_base64 ns = some nb →
        (encrypt S (.str d) m w).1 = .error .unsealError)) ∧
    (∀ c : Val, c ≠ .undefined →
      (∃ e, (decrypt S (.str d) c w).1 = .error e) ∧
      (∀ cs cb ns nb, c = .str cs → S.from_base64 cs = some cb → n = .str ns →
        S.from_base64 ns = some nb →
        (decrypt S (.str d) c w).1 = .error .unsealError)) := by
  have hres : resolve (.str d) w.global = .str d := rfl
  have hh : r.has (toPropertyKey (resolve (.str d) w.global)) = true :=
    Registry.has_of_get _ _ _ hget (by simp)
  have hgsk := run_get_symmetric_key_resolved S (.str d) w r hr hh
  rw [hres] at hgsk
  simp only [toPropertyKey] at hgsk
  have hrej' : Rejects S (localKeys S (w.setPad (.str d))) k := hrej
  have hda := run_decrypt_asymmetrical_rejects S (w.setPad (.str d)) k hrej'
  generalize hres2 : decrypt_asymmetrical S k (w.setPad (.str d)) = res at hda
  obtain ⟨o, w'⟩ := res
  simp only at hda
  subst hda
  refine ⟨?_, ?_, ?_⟩
  · intro rpk hrpk
    unfold prepare_symmkey
    simp only [hrpk, if_false, run_bind, run_get_pad, hres, hgsk, hget, Slot.key, run_JS_pure,
      hres2]
  · intro m hm
    have hfail : ∀ ns nb, n = .str ns → S.from_base64 ns = some nb →
        (encrypt S (.str d) m w).1 = .error .unsealError := by
      intro ns nb hn hnb
      subst hn
      unfold encrypt
      simp only [hm, if_false, run_bind, run_get_pad, hres, hgsk, hget, Slot.nonce, Slot.key,
        run_JS_pure, run_from_base64 S ns nb hnb, hres2]
    refine ⟨?_, hfail⟩
    cases n with
    | str ns =>
      cases hnb : S.from_base64 ns with
      | some nb => exact ⟨_, hfail ns nb rfl hnb⟩
      | none =>
        refine ⟨.base64Error, ?_⟩
        unfold encrypt
        simp only [hm, if_false, run_bind, run_get_pad, hres, hgsk, hget, Slot.nonce,
          run_JS_pure, from_base64, hnb, run_ofOption_none]
    | undefined =>
      refine ⟨.typeError, ?_⟩
      unfold encrypt
      simp only [hm, if_false, run_bind, run_get_pad, hres, hgsk, hget, Slot.nonce,
        run_JS_pure, from_base64, run_throw]
    | null =>
      refine ⟨.typeError, ?_⟩
      unfold encrypt
      simp only [hm, if_false, run_bind, run_get_pad, hres, hgsk, hget, Slot.nonce,
        run_JS_pure, from_base64, run_throw]
    | obj a b =>
      refine ⟨.typeError, ?_⟩
      unfold encrypt
      simp only [hm, if_false, run_bind, run_get_pad, hres, hgsk, hget, Slot.nonce,
        run_JS_pure, from_base64, run_throw]
  · intro c hc
    have hfail : ∀ cs cb ns nb, c = .str cs → S.from_base64 cs = some cb → n = .str ns →
        S.from_base64 ns = some nb →
        (decrypt S (.str d) c w).1 = .error .unsealError := by
      intro cs cb ns nb hcs hcb hn hnb
      subst hn
      subst hcs
      unfold decrypt
      simp only [hc, if_false, run_bind, run_get_pad, hres, hgsk, hget, Slot.nonce, Slot.key,
        run_JS_pure, run_from_base64 S ns nb hnb, run_from_base64 S cs cb hcb, hres2]
    refine ⟨?_, hfail⟩
    cases c with
    | undefined => exact absurd rfl hc
    | null =>
      refine ⟨.typeError, ?_⟩
      unfold decrypt
      simp only [hc, if_false, run_bind, run_get_pad, hres, hgsk, from_base64, run_throw]
    | obj a b =>
      refine ⟨.typeError, ?_⟩
      unfold decrypt
      simp only [hc, if_false, run_bind, run_get_pad, hres, hgsk, from_base64, run_throw]
    | str cs =>
      cases hcb : S.from_base64 cs with
      | none =>
        refine ⟨.base64Error, ?_⟩
        unfold decrypt
        simp only [hc, if_false, run_bind, run_get_pad, hres, hgsk, from_base64, hcb,
          run_ofOption_none]
      | some cb =>
        cases n with
        | str ns =>
          cases hnb : S.from_base64 ns with
          | some nb => exact ⟨_, hfail cs cb ns nb rfl hcb rfl hnb⟩
          | none =>
            refine ⟨.base64Error, ?_⟩
            unfold decrypt
            simp only [hc, if_false, run_bind, run_get_pad, hres, hgsk, hget, Slot.nonce,
              run_JS_pure, from_base64, hcb, hnb, run_ofOption_none, run_ofOption_some]
        | undefined =>
          refine ⟨.typeError, ?_⟩
          unfold decrypt
          simp only [hc, if_false, run_bind, run_get_pad, hres, hgsk, hget, Slot.nonce,
            run_JS_pure, from_base64, hcb, run_ofOption_some, run_throw]
        | null =>
          refine ⟨.typeError, ?_⟩
          unfold decrypt
          simp only [hc, if_false, run_bind, run_get_pad, hres, hgsk, hget, Slot.nonce,
            run_JS_pure, from_base64, hcb, run_ofOption_some, run_throw]
        | obj a b =>
          refine ⟨.typeError, ?_⟩
          unfold decrypt
          simp only [hc, if_false, run_bind, run_get_pad, hres, hgsk, hget, Slot.nonce,
            run_JS_pure, from_base64, hcb, run_ofOption_some, run_throw]

theorem unseal_failure_witness :
    Rejects toySodium (localKeys toySodium toyForeignWorld)
      (.str "#zdbbbbbbbbbbbbbbbbbbbbbbbbbbbbbbbb") ∧
    (prepare_symmkey toySodium (.str "pad1") (.str "Pq") toyForeignWorld).1
      = .error .unsealError ∧
    (encrypt toySodium (.str "pad1") (.str "hello") toyForeignWorld).1
      = .error .unsealError ∧
    (decrypt toySodium (.str "pad1") (.str "zzz") toyForeignWorld).1
      = .error .unsealError :=
  ⟨⟨"#zdbbbbbbbbbbbbbbbbbbbbbbbbbbbbbbbb", "#zdbbbbbbbbbbbbbbbbbbbbbbbbbbbbbbbb".data,
      ['P', 'c'], ['S', 'c'], rfl, rfl, rfl, rfl, by decide⟩,
    (unseal_failure toySodium toyForeignWorld "pad1"
      ⟨[("pad1", .obj (.str "#zdbbbbbbbbbbbbbbbbbbbbbbbbbbbbbbbb")
        (.str "aaaaaaaaaaaaaaaaaaaaaaaa"))], .objectPrototype⟩
      (.str "#zdbbbbbbbbbbbbbbbbbbbbbbbbbbbbbbbb") (.str "aaaaaaaaaaaaaaaaaaaaaaaa") rfl
      (by decide)
      ⟨"#zdbbbbbbbbbbbbbbbbbbbbbbbbbbbbbbbb", "#zdbbbbbbbbbbbbbbbbbbbbbbbbbbbbbbbb".data,
        ['P', 'c'], ['S', 'c'], rfl, rfl, rfl, rfl, by decide⟩).1 (.str "Pq") (by decide),
    ((unseal_failure toySodium toyForeignWorld "pad1"
      ⟨[("pad1", .obj (.str "#zdbbbbbbbbbbbbbbbbbbbbbbbbbbbbbbbb")
        (.str "aaaaaaaaaaaaaaaaaaaaaaaa"))], .objectPrototype⟩
      (.str "#zdbbbbbbbbbbbbbbbbbbbbbbbbbbbbbbbb") (.str "aaaaaaaaaaaaaaaaaaaaaaaa") rfl
      (by decide)
      ⟨"#zdbbbbbbbbbbbbbbbbbbbbbbbbbbbbbbbb", "#zdbbbbbbbbbbbbbbbbbbbbbbbbbbbbbbbb".data,
        ['P', 'c'], ['S', 'c'], rfl, rfl, rfl, rfl, by decide⟩).2.1 (.str "hello")
          (by decide)).2 "aaaaaaaaaaaaaaaaaaaaaaaa" _ rfl rfl,
    ((unseal_failure toySodium toyForeignWorld "pad1"
      ⟨[("pad1", .obj (.str "#zdbbbbbbbbbbbbbbbbbbbbbbbbbbbbbbbb")
        (.str "aaaaaaaaaaaaaaaaaaaaaaaa"))], .objectPrototype⟩
      (.str "#zdbbbbbbbbbbbbbbbbbbbbbbbbbbbbbbbb") (.str "aaaaaaaaaaaaaaaaaaaaaaaa") rfl
      (by decide)
      ⟨"#zdbbbbbbbbbbbbbbbbbbbbbbbbbbbbbbbb", "#zdbbbbbbbbbbbbbbbbbbbbbbbbbbbbbbbb".data,
        ['P', 'c'], ['S', 'c'], rfl, rfl, rfl, rfl, by decide⟩).2.2 (.str "zzz")
          (by decide)).2 "zzz" _ "aaaaaaaaaaaaaaaaaaaaaaaa" _ rfl rfl rfl rfl⟩

/-! ## Tampered ciphertexts -/

theorem toySodium_rejectsForgeries : toySodium.RejectsForgeries := by
  intro c n k h
  cases c with
  | nil => rfl
  | cons x rest =>
    by_cases hx : x = '@'
    · subst hx
      by_cases hl : n.length = 24 ∧ k.length = 32 ∧ rest.take 56 = n ++ k
      · exfalso
        apply h (String.mk (rest.drop 56))
        have e : n ++ k ++ rest.drop 56 = rest := by
          rw [← hl.2.2, List.take_append_drop]
        simp only [toySodium]
        rw [if_pos ⟨hl.1, hl.2.1⟩, e]
      · simp only [toySodium]
        rw [if_neg hl]
    · simp only [toySodium]
      split
      · next heq => exact absurd (List.cons.inj heq).1 hx
      · rfl

section Tamper

variable {Bytes : Type} (S : Sodium Bytes)

/-- With an entry the local identity opens, the outcome of `decrypt` on a string
in full: the decoding error when the string does not decode, else what the
secret box opens to, else the authentication error. -/
theorem run_decrypt_opened (p : Val) (cs : String) (w : World) (r : Registry) (k : Val)
    (ns : String) (nb raw : Bytes)
    (hr : w.global._symkeys = some r)
    (hget : r.get (toPropertyKey (resolve p w.global)) = .val (.obj k (.str ns)))
    (hn : S.from_base64 ns = some nb)
    (ho : Opens S w.global k raw) :
    (decrypt S p (.str cs) w).1 =
      match S.from_base64 cs with
      | none => .error .base64Error
      | some c =>
        match S.crypto_secretbox_open_easy c nb raw with
        | some m => .ok (.str m)
        | none => .error .authenticationError := by
  have hh := Registry.has_of_get _ _ _ hget (by simp)
  have ho' : Opens S (w.setPad (resolve p w.global)).global k raw := ho.congr_keys S rfl
  unfold decrypt
  simp only [reduceCtorEq, if_false, run_bind, run_get_pad,
    run_get_symmetric_key_resolved S p w r hr hh, hget, from_base64]
  cases hc : S.from_base64 cs with
  | none => simp only [run_ofOption_none]
  | some c =>
    simp only [run_ofOption_some, Slot.nonce, Slot.key, run_JS_pure, run_bind,
      hn, run_decrypt_asymmetrical S _ k raw ho']
    cases hm : S.crypto_secretbox_open_easy c nb raw with
    | none => simp only [hm, run_ofOption_none]
    | some m => simp only [hm, run_ofOption_some, run_pure]

end Tamper

/-- C13, as stated, fails. The toy provider satisfies the inverse laws and
rejects whatever is not a secret box under the given nonce and key. In a fresh
process `encrypt("pad1", "hello")` returns `c`; the string `c'` that
`encrypt("pad1", "world")` returns next (same nonce, same key) differs from `c`,
and `decrypt("pad1", c')` does not fail: it returns `world`. -/
theorem tamper_counterexample :
    toySodium.Lawful ∧ toySodium.RejectsForgeries ∧
    (encrypt toySodium (.str "pad1") (.str "hello") (World.fresh 0)).1 =
      .ok (.str "@aaaaaaaaaaaaaaaaaaaaaaaabbbbbbbbbbbbbbbbbbbbbbbbbbbbbbbbhello") ∧
    (encrypt toySodium (.str "pad1") (.str "world")
      (encrypt toySodium (.str "pad1") (.str "hello") (World.fresh 0)).2).1 =
      .ok (.str "@aaaaaaaaaaaaaaaaaaaaaaaabbbbbbbbbbbbbbbbbbbbbbbbbbbbbbbbworld") ∧
    "@aaaaaaaaaaaaaaaaaaaaaaaabbbbbbbbbbbbbbbbbbbbbbbbbbbbbbbbworld" ≠
      "@aaaaaaaaaaaaaaaaaaaaaaaabbbbbbbbbbbbbbbbbbbbbbbbbbbbbbbbhello" ∧
    (decrypt toySodium (.str "pad1")
      (.str "@aaaaaaaaaaaaaaaaaaaaaaaabbbbbbbbbbbbbbbbbbbbbbbbbbbbbbbbworld")
      (encrypt toySodium (.str "pad1") (.str "hello") (World.fresh 0)).2).1 =
      .ok (.str "world") :=
  ⟨toySodium_lawful, toySodium_rejectsForgeries, by decide, by decide, by decide, by decide⟩

/-- C13, amended. Under the inverse laws, and assuming the authenticated-decrypt
primitive rejects whatever is not a secret box made under the given nonce and
key: let `encrypt(d, m)` have returned the secret box of `m` under the nonce `nb`
and raw key `raw` of `d`. Then for every string `c'`, `decrypt(d, c')` run next
(1) fails with the decoding error when `c'` does not decode from base64;
(2) fails with the authentication error when `c'` decodes to bytes that are not
the secret box of any text under `nb` and `raw`; (3) whenever it returns a value,
that value is a text whose secret box under `nb` and `raw` is exactly what `c'`
decodes to: no corrupted text is ever returned. -/
theorem tamper_rejection {Bytes : Type} (S : Sodium Bytes) (hS : S.Lawful)
    (hrej : S.RejectsForgeries) (w : World) (d m : String)
    (hid : IdentityOk S w.global) (h : Absent w.global d ∨ SelfWrapped S w.global d) :
    ∃ nb raw c, S.crypto_secretbox_easy m nb raw = some c ∧
      (encrypt S (.str d) (.str m) w).1 = .ok (.str (S.to_base64 c)) ∧
      ∀ c' : String,
        (S.from_base64 c' = none →
          (decrypt S (.str d) (.str c') (encrypt S (.str d) (.str m) w).2).1
            = .error .base64Error) ∧
        (∀ cb, S.from_base64 c' = some cb →
          (∀ m', S.crypto_secretbox_easy m' nb raw ≠ some cb) →
          (decrypt S (.str d) (.str c') (encrypt S (.str d) (.str m) w).2).1
            = .error .authenticationError) ∧
        (∀ p, (decrypt S (.str d) (.str c') (encrypt S (.str d) (.str m) w).2).1 = .ok p →
          ∃ m' cb, p = .str m' ∧ S.from_base64 c' = some cb ∧
            S.crypto_secretbox_easy m' nb raw = some cb) := by
  obtain ⟨raw, nb, c, hc, hC, hsw, _⟩ := encrypt_establishes S hS (.str d) m w hid h
  have hres : ∀ g : Global, resolve (.str d) g = .str d := fun _ => rfl
  simp only [hres, toPropertyKey] at hsw
  obtain ⟨sealed, r, hr, hg, ho⟩ := hsw.opens S hS
  refine ⟨nb, raw, c, hc, hC, fun c' => ?_⟩
  have hdec := run_decrypt_opened S (.str d) c' (encrypt S (.str d) (.str m) w).2 r _ _ nb raw
    hr hg (hS.base64 nb) ho
  refine ⟨?_, ?_, ?_⟩
  · intro hn
    rw [hdec, hn]
  · intro cb hcb hno
    rw [hdec, hcb]
    simp only [hrej cb nb raw hno]
  · intro p hp
    rw [hdec] at hp
    cases hcb : S.from_base64 c' with
    | none => rw [hcb] at hp; exact absurd hp (by simp)
    | some cb =>
      rw [hcb] at hp
      simp only at hp
      cases hop : S.crypto_secretbox_open_easy cb nb raw with
      | none => rw [hop] at hp; exact absurd hp (by simp)
      | some m'' =>
        rw [hop] at hp
        simp only [Except.ok.injEq] at hp
        have hex : ∃ m', S.crypto_secretbox_easy m' nb raw = some cb := by
          by_contra hne
          have hall : ∀ m', S.crypto_secretbox_easy m' nb raw ≠ some cb :=
            fun m' hm' => hne ⟨m', hm'⟩
          rw [hrej cb nb raw hall] at hop
          exact absurd hop (by simp)
        obtain ⟨m', hm'⟩ := hex
        have hopen := hS.secretbox_open m' nb raw cb hm'
        rw [hop] at hopen
        have e : m'' = m' := Option.some.inj hopen
        exact ⟨m', cb, by rw [← hp, e], rfl, hm'⟩

theorem tamper_rejection_witness :
    toySodium.Lawful ∧ toySodium.RejectsForgeries ∧
    IdentityOk toySodium (World.fresh 0).global ∧ Absent (World.fresh 0).global "pad1" ∧
    ∃ nb raw c, toySodium.crypto_secretbox_easy "hello" nb raw = some c ∧
      (encrypt toySodium (.str "pad1") (.str "hello") (World.fresh 0)).1
        = .ok (.str (toySodium.to_base64 c)) ∧
      ∀ c' : String,
        (toySodium.from_base64 c' = none →
          (decrypt toySodium (.str "pad1") (.str c')
            (encrypt toySodium (.str "pad1") (.str "hello") (World.fresh 0)).2).1
            = .error .base64Error) ∧
        (∀ cb, toySodium.from_base64 c' = some cb →
          (∀ m', toySodium.crypto_secretbox_easy m' nb raw ≠ some cb) →
          (decrypt toySodium (.str "pad1") (.str c')
            (encrypt toySodium (.str "pad1") (.str "hello") (World.fresh 0)).2).1
            = .error .authenticationError) ∧
        (∀ p, (decrypt toySodium (.str "pad1") (.str c')
            (encrypt toySodium (.str "pad1") (.str "hello") (World.fresh 0)).2).1 = .ok p →
          ∃ m' cb, p = .str m' ∧ toySodium.from_base64 c' = some cb ∧
            toySodium.crypto_secretbox_easy m' nb raw = some cb) :=
  ⟨toySodium_lawful, toySodium_rejectsForgeries, IdentityOk.fresh toySodium 0, by decide,
    tamper_rejection toySodium toySodium_lawful toySodium_rejectsForgeries (World.fresh 0)
      "pad1" "hello" (IdentityOk.fresh toySodium 0) (Or.inl (by decide))⟩

/-! ## Entries across calls -/

/-- A read that found a property is not changed by a lazy initialisation. -/
theorem RegistryGrows.get_of_has {key d : String} {r : Registry} {o' : Option Registry}
    (h : RegistryGrows key (some r) o') (hd : r.has d = true) :
    ∃ r', o' = some r' ∧ r'.get d = r.get d := by
  rcases h with rfl | ⟨h, _⟩ | ⟨hn, v, rfl⟩
  · exact ⟨r, rfl, rfl⟩
  · exact absurd h (by simp)
  · rw [Option.getD_some] at hn ⊢
    have hne : d ≠ key := by
      intro hdk
      rw [hdk, hn] at hd
      exact absurd hd (by simp)
    refine ⟨_, rfl, ?_⟩
    rw [Registry.set_of_not_has r key v hn]
    unfold Registry.get
    rw [Registry.getOwn_cons_ne r key d v hne]

/-- An assignment under another name leaves the read of `d` as it is, unless it
is the assignment to `__proto__` and `d` is not an own property. -/
theorem Registry.get_set_ne (r : Registry) (k d : String) (v : Val) (h : d ≠ k)
    (hp : k ≠ "__proto__" ∨ ∃ x, r.getOwn d = some x) : (r.set k v).get d = r.get d := by
  unfold Registry.get
  rw [Registry.getOwn_set_ne r k d v h]
  cases ho : r.getOwn d with
  | some x => rfl
  | none =>
    rcases hp with hp | ⟨x, hx⟩
    · simp only [(Registry.set_of_ne_proto r k v hp).2]
    · rw [ho] at hx; exact absurd hx (by simp)

section Across

variable {Bytes : Type} (S : Sodium Bytes)

/-- A self-wrapped entry survives a lazy initialisation, for whatever identifier. -/
theorem SelfWrappedWith.of_lazyInit {x : Val} {w w' : World} {d : String} {raw nb : Bytes}
    (h : SelfWrappedWith S w.global d raw nb) (hl : LazyInit S x w w') :
    SelfWrappedWith S w'.global d raw nb := by
  obtain ⟨t, e, sealed, r, hk, hr, hg, hrest⟩ := h
  obtain ⟨h1, h2, _⟩ := hl
  have hk' : w'.global._keys = some (S.keysAt t) := by
    rcases h1 with h1 | ⟨h1, _⟩
    · exact h1.trans hk
    · rw [hk] at h1; exact absurd h1 (by simp)
  rw [hr] at h2
  obtain ⟨r', hr', hg'⟩ := h2.get_of_has (Registry.has_of_get _ _ _ hg (by simp))
  exact ⟨t, e, sealed, r', hk', hr', hg'.trans hg, hrest⟩

/-- Once `get_symmetric_key` has returned for the identifier the pointer is on,
running anything that starts with it from the world reached gives the outcome
it gave. -/
theorem bind_after_get_symmetric_key {α : Type} (x : Val) (f : Slot → JS α) (w : World)
    (hp : w.global._pad = x) (sk : Slot) (h : (get_symmetric_key S x w).1 = .ok sk) :
    (get_symmetric_key S x >>= f) w =
      (get_symmetric_key S x >>= f) (get_symmetric_key S x w).2 := by
  obtain ⟨r, hr, hg, hh, hpad⟩ := get_symmetric_key_ok S x w sk h
  have hres : resolve x w.global = x := resolve_of_pad x _ hp
  rw [hres] at hg hh hpad
  have hres2 : resolve x (get_symmetric_key S x w).2.global = x := resolve_of_pad x _ hpad
  have h2 := run_get_symmetric_key_has S x (get_symmetric_key S x w).2 r hr
    (by rw [hres2]; exact hh)
  rw [hres2, setPad_eq_self _ _ hpad, hg] at h2
  rw [run_bind, run_bind, h2]
  generalize get_symmetric_key S x w = res at h ⊢
  obtain ⟨o, w2⟩ := res
  simp only at h
  subst h
  rfl

/-- Whatever runs after `get_symmetric_key` on a document that had no entry, the
world left holds the self-wrapped entry that `get_symmetric_key` created from
the two random buffers it drew. -/
theorem selfWrapped_after_tail {α : Type} (hS : S.Lawful) (x : Val) (f : Slot → JS α)
    (hf : Steps (LazyFrom S x) (get_symmetric_key S x >>= f)) (w : World)
    (hp : w.global._pad = x) (hid : IdentityOk S w.global)
    (habs : Absent w.global (toPropertyKey x)) :
    SelfWrappedWith S ((get_symmetric_key S x >>= f) w).2.global (toPropertyKey x)
      (S.randombytes_buf (w.entropy + 1) S.crypto_secretbox_KEYBYTES)
      (S.randombytes_buf w.entropy S.crypto_secretbox_NONCEBYTES) := by
  have hres : resolve x w.global = x := resolve_of_pad x _ hp
  obtain ⟨hsw, ⟨e, he, _⟩, hpad⟩ := get_symmetric_key_creates S hS x w hid
    (by rw [hres]; exact habs)
  rw [hres] at hsw hpad
  rw [bind_after_get_symmetric_key S x f w hp e he]
  have hl := hf (get_symmetric_key S x w).2 hpad
  exact hsw.of_lazyInit S hl

end Across

/-! ## First use of a document -/

/-- First use of a document whose name the test `d in global._symkeys` does not
find: under the provider laws, from a state whose cached identity (if any) came
from the generator, each of `encrypt(d, y)`, `decrypt(d, y)` and
`prepare_symmkey(d, y)`, whatever it returns or throws, leaves the registry
holding under `d` the self-wrapped entry made of the two random buffers just
drawn (nonce first, key second). The hypothesis `Absent` is the test of the
code, not "nothing was stored": it leaves out the names inherited from
`Object.prototype`, for which no entry is created although nothing is stored
under them. -/
theorem entry_created_on_first_use {Bytes : Type} (S : Sodium Bytes) (hS : S.Lawful)
    (w : World) (d : String) (y : Val) (hy : y ≠ .undefined)
    (hid : IdentityOk S w.global) (habs : Absent w.global d) :
    SelfWrappedWith S (encrypt S (.str d) y w).2.global d
      (S.randombytes_buf (w.entropy + 1) S.crypto_secretbox_KEYBYTES)
      (S.randombytes_buf w.entropy S.crypto_secretbox_NONCEBYTES) ∧
    SelfWrappedWith S (decrypt S (.str d) y w).2.global d
      (S.randombytes_buf (w.entropy + 1) S.crypto_secretbox_KEYBYTES)
      (S.randombytes_buf w.entropy S.crypto_secretbox_NONCEBYTES) ∧
    SelfWrappedWith S (prepare_symmkey S (.str d) y w).2.global d
      (S.randombytes_buf (w.entropy + 1) S.crypto_secretbox_KEYBYTES)
      (S.randombytes_buf w.entropy S.crypto_secretbox_NONCEBYTES) := by
  refine ⟨?_, ?_, ?_⟩
  · unfold encrypt
    simp only [hy, if_false]
    rw [run_bind, run_get_pad]
    exact selfWrapped_after_tail S hS (.str d) _ (steps_encrypt_tail S _ _)
      (w.setPad (.str d)) rfl hid habs
  · unfold decrypt
    simp only [hy, if_false]
    rw [run_bind, run_get_pad]
    exact selfWrapped_after_tail S hS (.str d) _ (steps_decrypt_tail S _ _)
      (w.setPad (.str d)) rfl hid habs
  · unfold prepare_symmkey
    simp only [hy, if_false]
    rw [run_bind, run_get_pad]
    exact selfWrapped_after_tail S hS (.str d) _ (steps_prepare_tail S _ _)
      (w.setPad (.str d)) rfl hid habs

theorem entry_created_on_first_use_witness :
    Val.str "zzz" ≠ .undefined ∧ IdentityOk toySodium (World.fresh 0).global ∧
    Absent (World.fresh 0).global "pad1" ∧
    (decrypt toySodium (.str "pad1") (.str "zzz") (World.fresh 0)).1
      = .error .authenticationError ∧
    SelfWrappedWith toySodium
      (encrypt toySodium (.str "pad1") (.str "zzz") (World.fresh 0)).2.global "pad1"
      (toySodium.randombytes_buf ((World.fresh 0).entropy + 1)
        toySodium.crypto_secretbox_KEYBYTES)
      (toySodium.randombytes_buf (World.fresh 0).entropy
        toySodium.crypto_secretbox_NONCEBYTES) ∧
    SelfWrappedWith toySodium
      (decrypt toySodium (.str "pad1") (.str "zzz") (World.fresh 0)).2.global "pad1"
      (toySodium.randombytes_buf ((World.fresh 0).entropy + 1)
        toySodium.crypto_secretbox_KEYBYTES)
      (toySodium.randombytes_buf (World.fresh 0).entropy
        toySodium.crypto_secretbox_NONCEBYTES) ∧
    SelfWrappedWith toySodium
      (prepare_symmkey toySodium (.str "pad1") (.str "zzz") (World.fresh 0)).2.global "pad1"
      (toySodium.randombytes_buf ((World.fresh 0).entropy + 1)
        toySodium.crypto_secretbox_KEYBYTES)
      (toySodium.randombytes_buf (World.fresh 0).entropy
        toySodium.crypto_secretbox_NONCEBYTES) :=
  ⟨by decide, IdentityOk.fresh toySodium 0, by decide, by decide,
    entry_created_on_first_use toySodium toySodium_lawful (World.fresh 0) "pad1" (.str "zzz")
      (by decide) (IdentityOk.fresh toySodium 0) (by decide)⟩

/-- C16, evaluated where the code departs from it. In a fresh process no
registry exists and nothing is stored under `toString` (nor under `constructor`);
yet `decrypt("toString", "zzz")`, `encrypt("toString", "hello")` and
`prepare_symmkey("toString", "Pc")` each throw a `TypeError` and create no
entry: the registry left behind is the empty object, with no own entry under
`toString`, so the state holds no self-wrapped entry for that document. In
`decrypt` and `encrypt` no random buffer is drawn and no identity is generated
either (the entropy position stays 0); `prepare_symmkey` generates the identity
(`decrypt_asymmetrical` calls `get_keys` before it decodes its argument) and
nothing else. The same happens for `decrypt("constructor", "zzz")`. For a name
that is not inherited (`pad1`) the same `decrypt` call does leave a new own
entry and a generated identity. -/
theorem first_use_inherited_divergence :
    (World.fresh 0).global._symkeys = none ∧
    (Registry.empty.getOwn "toString", Registry.empty.getOwn "constructor") = (none, none) ∧
    decrypt toySodium (.str "toString") (.str "zzz") (World.fresh 0) =
      (.error .typeError, ⟨⟨none, some Registry.empty, .str "toString"⟩, 0⟩) ∧
    encrypt toySodium (.str "toString") (.str "hello") (World.fresh 0) =
      (.error .typeError, ⟨⟨none, some Registry.empty, .str "toString"⟩, 0⟩) ∧
    prepare_symmkey toySodium (.str "toString") (.str "Pc") (World.fresh 0) =
      (.error .typeError,
       ⟨⟨some (toySodium.keysAt 0), some Registry.empty, .str "toString"⟩, 1⟩) ∧
    decrypt toySodium (.str "constructor") (.str "zzz") (World.fresh 0) =
      (.error .typeError, ⟨⟨none, some Registry.empty, .str "constructor"⟩, 0⟩) ∧
    ¬ SelfWrapped toySodium
      (decrypt toySodium (.str "toString") (.str "zzz") (World.fresh 0)).2.global "toString" ∧
    ¬ SelfWrapped toySodium
      (encrypt toySodium (.str "toString") (.str "hello") (World.fresh 0)).2.global "toString" ∧
    ¬ SelfWrapped toySodium
      (prepare_symmkey toySodium (.str "toString") (.str "Pc") (World.fresh 0)).2.global
      "toString" ∧
    (decrypt toySodium (.str "pad1") (.str "zzz") (World.fresh 0)).1
      = .error .authenticationError ∧
    (decrypt toySodium (.str "pad1") (.str "zzz") (World.fresh 0)).2.global._keys
      = some (toySodium.keysAt 2) ∧
    ((decrypt toySodium (.str "pad1") (.str "zzz") (World.fresh 0)).2.global._symkeys.map
      fun r => r.getOwn "pad1")
      = some (some (.obj (.str "#cdbbbbbbbbbbbbbbbbbbbbbbbbbbbbbbbb")
          (.str "aaaaaaaaaaaaaaaaaaaaaaaa"))) := by
  have hno : ∀ g : Global, g._symkeys = some Registry.empty →
      ¬ SelfWrapped toySodium g "toString" := by
    rintro g hg ⟨_, _, _, _, _, r, _, hr, hget, _⟩
    rw [hg] at hr
    have hr' : Registry.empty = r := Option.some.inj hr
    have hnat : Registry.empty.get "toString" = .native "toString" := by decide
    rw [← hr', hnat] at hget
    exact Slot.noConfusion hget
  refine ⟨rfl, by decide, by decide, by decide, by decide, by decide,
    hno _ (by decide), hno _ (by decide), hno _ (by decide),
    by decide, by decide, by decide⟩

/-! ## One nonce per document -/

section FixedNonce

variable {Bytes : Type} (S : Sodium Bytes)

/-- A self-wrapped entry survives every call that is not a `store_symmkey` over it. -/
theorem selfWrapped_after_call (c : Call) (w : World) (d : String) (raw nb : Bytes)
    (h : SelfWrappedWith S w.global d raw nb) (hc : ¬ c.storesOver d w.global) :
    SelfWrappedWith S (c.run S w).2.global d raw nb := by
  cases hs : c.isStore with
  | false => exact h.of_lazyInit S (lazyInit_call S c hs w)
  | true =>
    cases c with
    | store_symmkey a b =>
      obtain ⟨t, e, sealed, r, hk, hr, hg, hrest⟩ := h
      have hne : d ≠ toPropertyKey (resolve (effectiveId a b) w.global) := by
        intro heq
        exact hc ⟨hs, Or.inl heq.symm⟩
      have hp : toPropertyKey (resolve (effectiveId a b) w.global) ≠ "__proto__" ∨
          ∃ x, r.getOwn d = some x := by
        by_cases hk' : toPropertyKey (resolve (effectiveId a b) w.global) = "__proto__"
        · right
          cases ho : r.getOwn d with
          | some x => exact ⟨x, rfl⟩
          | none =>
            exfalso
            refine hc ⟨hs, Or.inr ⟨hk', fun r' hr' => ?_⟩⟩
            rw [hr] at hr'
            cases hr'
            exact ho
        · exact Or.inl hk'
      simp only [Call.run]
      rw [run_store_symmkey_general, hr, Option.getD_some]
      exact ⟨t, e, sealed, _, hk, rfl, (Registry.get_set_ne r _ d _ hne hp).trans hg, hrest⟩
    | publickey => exact absurd hs (by simp [Call.isStore])
    | prepare_symmkey a b => exact absurd hs (by simp [Call.isStore])
    | encrypt a b => exact absurd hs (by simp [Call.isStore])
    | decrypt a b => exact absurd hs (by simp [Call.isStore])

theorem selfWrapped_after_runCalls (cs : List Call) (w : World) (d : String) (raw nb : Bytes)
    (h : SelfWrappedWith S w.global d raw nb) (hcs : NoStoreOver S d cs w) :
    SelfWrappedWith S (runCalls S cs w).global d raw nb := by
  induction cs generalizing w with
  | nil => exact h
  | cons c cs ih => exact ih _ (selfWrapped_after_call S c w d raw nb h hcs.1) hcs.2

end FixedNonce

/-- C11. Fixed nonce per document, under the provider laws. From a state whose
cached identity (if any) came from the generator and in which `d` has no entry
(the first call then creates it) or a self-wrapped one: `encrypt(d, m1)` returns
the base64 form of the secret box of `m1` under a nonce `nb` and a raw key `raw`;
afterwards the entry read under `d` is `{key, nonce}` with `nonce` decoding to
`nb` and `key` opened by the local identity to `raw`; `encrypt(d, m2)` run next
returns the secret box of `m2` under the same `nb` and `raw`; and so it does
after any calls in between of which none is a `store_symmkey` over `d`. -/
theorem fixed_nonce_per_document {Bytes : Type} (S : Sodium Bytes) (hS : S.Lawful)
    (w : World) (d m1 m2 : String) (hid : IdentityOk S w.global)
    (h : Absent w.global d ∨ SelfWrapped S w.global d) :
    ∃ nb raw c1 c2,
      S.crypto_secretbox_easy m1 nb raw = some c1 ∧
      (encrypt S (.str d) (.str m1) w).1 = .ok (.str (S.to_base64 c1)) ∧
      (∃ r k ns, (encrypt S (.str d) (.str m1) w).2.global._symkeys = some r ∧
        r.get d = .val (.obj k (.str ns)) ∧ S.from_base64 ns = some nb ∧
        Opens S (encrypt S (.str d) (.str m1) w).2.global k raw) ∧
      S.crypto_secretbox_easy m2 nb raw = some c2 ∧
      (encrypt S (.str d) (.str m2) (encrypt S (.str d) (.str m1) w).2).1
        = .ok (.str (S.to_base64 c2)) ∧
      (∀ cs : List Call, NoStoreOver S d cs (encrypt S (.str d) (.str m1) w).2 →
        (encrypt S (.str d) (.str m2)
          (runCalls S cs (encrypt S (.str d) (.str m1) w).2)).1
          = .ok (.str (S.to_base64 c2))) := by
  obtain ⟨raw, nb, c1, hc1, hC1, hsw, _⟩ := encrypt_establishes S hS (.str d) m1 w hid h
  have hres : ∀ g : Global, resolve (.str d) g = .str d := fun _ => rfl
  simp only [hres, toPropertyKey] at hsw
  obtain ⟨sealed, r, hr, hg, ho⟩ := hsw.opens S hS
  obtain ⟨c2, hc2, hrun2⟩ := encrypt_of_selfWrapped S hS (.str d) m2 _ raw nb hsw
  refine ⟨nb, raw, c1, c2, hc1, hC1, ⟨r, _, _, hr, hg, hS.base64 nb, ho⟩, hc2, ?_, ?_⟩
  · rw [hrun2]
  · intro cs hcs
    have hsw' := selfWrapped_after_runCalls S cs _ d raw nb hsw hcs
    obtain ⟨c2', hc2', hrun2'⟩ := encrypt_of_selfWrapped S hS (.str d) m2 _ raw nb hsw'
    rw [hc2] at hc2'
    cases hc2'
    rw [hrun2']

theorem fixed_nonce_per_document_witness :
    IdentityOk toySodium (World.fresh 0).global ∧ Absent (World.fresh 0).global "pad1" ∧
    ∃ nb raw c1 c2,
      toySodium.crypto_secretbox_easy "hello" nb raw = some c1 ∧
      (encrypt toySodium (.str "pad1") (.str "hello") (World.fresh 0)).1
        = .ok (.str (toySodium.to_base64 c1)) ∧
      (∃ r k ns,
        (encrypt toySodium (.str "pad1") (.str "hello") (World.fresh 0)).2.global._symkeys
          = some r ∧
        r.get "pad1" = .val (.obj k (.str ns)) ∧ toySodium.from_base64 ns = some nb ∧
        Opens toySodium (encrypt toySodium (.str "pad1") (.str "hello")
          (World.fresh 0)).2.global k raw) ∧
      toySodium.crypto_secretbox_easy "world" nb raw = some c2 ∧
      (encrypt toySodium (.str "pad1") (.str "world")
        (encrypt toySodium (.str "pad1") (.str "hello") (World.fresh 0)).2).1
        = .ok (.str (toySodium.to_base64 c2)) ∧
      (∀ cs : List Call,
        NoStoreOver toySodium "pad1" cs
          (encrypt toySodium (.str "pad1") (.str "hello") (World.fresh 0)).2 →
        (encrypt toySodium (.str "pad1") (.str "world")
          (runCalls toySodium cs
            (encrypt toySodium (.str "pad1") (.str "hello") (World.fresh 0)).2)).1
          = .ok (.str (toySodium.to_base64 c2))) :=
  ⟨IdentityOk.fresh toySodium 0, by decide,
    fixed_nonce_per_document toySodium toySodium_lawful (World.fresh 0) "pad1" "hello" "world"
      (IdentityOk.fresh toySodium 0) (Or.inl (by decide))⟩

/-! ## Independence of the pointer -/

section PadFreeRules

variable {Bytes : Type} (S : Sodium Bytes)

theorem padFree_pure {α : Type} (a : α) : PadFree (Pure.pure a : JS α) :=
  fun _ _ => rfl

theorem padFree_JS_pure {α : Type} (a : α) : PadFree (JS.pure a : JS α) :=
  fun _ _ => rfl

theorem padFree_throw {α : Type} (e : Err) : PadFree (JS.throw e : JS α) :=
  fun _ _ => rfl

theorem padFree_ofOption {α : Type} (e : Err) (o : Option α) : PadFree (JS.ofOption e o) := by
  cases o
  · exact padFree_throw e
  · exact padFree_JS_pure _

theorem padFree_draw : PadFree JS.draw :=
  fun _ _ => rfl

theorem padFree_bind {α β : Type} {m : JS α} {f : α → JS β}
    (hm : PadFree m) (hf : ∀ a, PadFree (f a)) : PadFree (m >>= f) := by
  intro w v
  rw [run_bind, run_bind, hm w v]
  generalize m w = res
  obtain ⟨o, w'⟩ := res
  cases o with
  | error e => rfl
  | ok a => exact hf a w' v

theorem padFree_from_base64 (x : Val) : PadFree (from_base64 S x) := by
  cases x with
  | str s => exact padFree_ofOption _ _
  | undefined => exact padFree_throw _
  | null => exact padFree_throw _
  | obj a b => exact padFree_throw _

theorem padFree_key (e : Slot) : PadFree e.key := by
  unfold Slot.key
  split
  · exact padFree_JS_pure _
  · exact padFree_throw _
  · exact padFree_throw _
  · exact padFree_JS_pure _

theorem padFree_nonce (e : Slot) : PadFree e.nonce := by
  unfold Slot.nonce
  split
  · exact padFree_JS_pure _
  · exact padFree_throw _
  · exact padFree_throw _
  · exact padFree_JS_pure _

theorem padFree_get_keys : PadFree (get_keys S) := by
  intro w v
  rw [run_get_keys, run_get_keys]
  have hk : (w.setPad v).global._keys = w.global._keys := rfl
  rw [hk]
  cases w.global._keys with
  | some k => rfl
  | none => rfl

theorem padFree_decrypt_asymmetrical (msg : Val) : PadFree (decrypt_asymmetrical S msg) :=
  padFree_bind (padFree_get_keys S) fun _ =>
    padFree_bind (padFree_from_base64 S _) fun _ =>
      padFree_bind (padFree_from_base64 S _) fun _ =>
        padFree_bind (padFree_from_base64 S _) fun _ => padFree_ofOption _ _

theorem padFree_crypto_secretbox_easy (msg : Val) (n k : Bytes) :
    PadFree (crypto_secretbox_easy S msg n k) := by
  unfold crypto_secretbox_easy
  split
  · exact padFree_bind (padFree_ofOption _ _) fun _ => padFree_pure _
  · exact padFree_throw _

theorem padFree_encrypt_tail (msg : Val) (sk : Slot) :
    PadFree (do
      let n ← sk.nonce
      let nonce ← from_base64 S n
      let k ← sk.key
      let key ← decrypt_asymmetrical S k
      crypto_secretbox_easy S msg nonce key) :=
  padFree_bind (padFree_nonce _) fun _ =>
    padFree_bind (padFree_from_base64 S _) fun _ =>
      padFree_bind (padFree_key _) fun _ =>
        padFree_bind (padFree_decrypt_asymmetrical S _) fun _ =>
          padFree_crypto_secretbox_easy S _ _ _

/-- Two identifiers with the same property name: `get_symmetric_key` on the
second, pointer on it, is `get_symmetric_key` on the first, pointer on it, up
to the pointer. -/
theorem get_symmetric_key_setPad (x1 x2 : Val) (hkey : toPropertyKey x1 = toPropertyKey x2)
    (w : World) (hp : w.global._pad = x1) :
    get_symmetric_key S x2 (w.setPad x2) =
      ((get_symmetric_key S x1 w).1, (get_symmetric_key S x1 w).2.setPad x2) := by
  have h1 : resolve x1 w.global = x1 := resolve_of_pad _ _ hp
  have h2 : resolve x2 (w.setPad x2).global = x2 := resolve_of_pad _ _ rfl
  unfold get_symmetric_key
  simp only [run_bind, run_get_pad, h1, h2, setPad_setPad, setPad_eq_self w x1 hp,
    run_create_symkeys_var, ← hkey]
  have hsym : (w.setPad x2).global._symkeys = w.global._symkeys := rfl
  simp only [hsym]
  cases hh : (w.global._symkeys.getD Registry.empty).has (toPropertyKey x1) with
  | true => rfl
  | false =>
    simp only [Bool.false_eq_true, if_false, run_bind, run_draw, run_get_keys,
      encrypt_asymmetrical, from_base64, run_modifyGlobal, run_pure]
    have hkeys : (w.setPad x2).global._keys = w.global._keys := rfl
    have hent : (w.setPad x2).entropy = w.entropy := rfl
    simp only [hkeys, hent]
    cases hk : w.global._keys with
    | some k =>
      simp only []
      cases hb : S.from_base64 k.pk with
      | none => rfl
      | some pk =>
        simp only [run_ofOption_some]
        cases hs : S.crypto_box_seal (w.entropy + 1 + 1)
            (S.randombytes_buf (w.entropy + 1) S.crypto_secretbox_KEYBYTES) pk with
        | none => rfl
        | some c => rfl
    | none =>
      simp only []
      cases hb : S.from_base64 (S.keysAt (w.entropy + 1 + 1)).pk with
      | none => rfl
      | some pk =>
        simp only [run_ofOption_some]
        cases hs : S.crypto_box_seal (w.entropy + 1 + 1 + 1)
            (S.randombytes_buf (w.entropy + 1) S.crypto_secretbox_KEYBYTES) pk with
        | none => rfl
        | some c => rfl

/-- The same for anything pointer-free that runs after `get_symmetric_key`. -/
theorem bind_get_symmetric_key_setPad {α : Type} (x1 x2 : Val)
    (hkey : toPropertyKey x1 = toPropertyKey x2) (w : World) (hp : w.global._pad = x1)
    (f : Slot → JS α) (hf : ∀ sk, PadFree (f sk)) :
    (get_symmetric_key S x2 >>= f) (w.setPad x2) =
      (((get_symmetric_key S x1 >>= f) w).1,
       ((get_symmetric_key S x1 >>= f) w).2.setPad x2) := by
  rw [run_bind, run_bind, get_symmetric_key_setPad S x1 x2 hkey w hp]
  generalize get_symmetric_key S x1 w = res
  obtain ⟨o, w'⟩ := res
  cases o with
  | error e => rfl
  | ok sk => exact hf sk w' x2

/-- With the pointer unset, `encrypt("undefined", y)` is `encrypt(y)` up to the
pointer: same outcome, same identity, registry and entropy position. -/
theorem encrypt_undefined_slot (w : World) (hp : w.global._pad = .undefined) (y : Val)
    (hy : y ≠ .undefined) :
    encrypt S (.str "undefined") y w =
      ((encrypt S y .undefined w).1,
       (encrypt S y .undefined w).2.setPad (.str "undefined")) := by
  have hl : encrypt S (.str "undefined") y w =
      (get_symmetric_key S (.str "undefined") >>= fun sk => do
        let n ← sk.nonce
        let nonce ← from_base64 S n
        let k ← sk.key
        let key ← decrypt_asymmetrical S k
        crypto_secretbox_easy S y nonce key) (w.setPad (.str "undefined")) := by
    unfold encrypt
    simp only [hy, if_false]
    rw [run_bind, run_get_pad]
    rfl
  have hr : encrypt S y .undefined w =
      (get_symmetric_key S .undefined >>= fun sk => do
        let n ← sk.nonce
        let nonce ← from_base64 S n
        let k ← sk.key
        let key ← decrypt_asymmetrical S k
        crypto_secretbox_easy S y nonce key) w := by
    unfold encrypt
    simp only [if_true]
    rw [run_bind, run_get_pad, resolve_null, hp, setPad_eq_self w _ hp]
  rw [hl, hr]
  exact bind_get_symmetric_key_setPad S .undefined (.str "undefined") rfl w hp _
    (fun sk => padFree_encrypt_tail S y sk)

end PadFreeRules

/-! ## The slot named `undefined` -/

theorem encrypt_one_argument {Bytes : Type} (S : Sodium Bytes) (y : Val) (hy : y ≠ .undefined)
    (w : World) : encrypt S y .undefined w = encrypt S .null y w := by
  unfold encrypt
  simp only [hy, if_true, if_false]

theorem decrypt_one_argument {Bytes : Type} (S : Sodium Bytes) (y : Val) (hy : y ≠ .undefined)
    (w : World) : decrypt S y .undefined w = decrypt S .null y w := by
  unfold decrypt
  simp only [hy, if_true, if_false]

/-- C17. Unset pointer falls through to the slot named `undefined`. In a state
whose pointer has never been set: (1) `encrypt(y)` with the identifier omitted
leaves the pointer unset and touches the registry at most by creating the entry
under the property name `undefined`; and `encrypt("undefined", y)` from the same
state has the same outcome and leaves the same identity and registry, differing
only in the pointer, which it sets. (2) Under the provider laws, when the name
`undefined` has no entry or a self-wrapped one, `encrypt(m)` succeeds with the
same ciphertext `c` as `encrypt("undefined", m)`, leaves a self-wrapped entry
under `undefined`, and each form decrypts the other: `decrypt("undefined", c)`
after the call that omitted the identifier, and `decrypt(c)` after the call that
named it, both return `m`. -/
theorem undefined_slot_fallthrough {Bytes : Type} (S : Sodium Bytes) (w : World)
    (hp : w.global._pad = .undefined) :
    (∀ y : Val, y ≠ .undefined →
      (encrypt S y .undefined w).2.global._pad = .undefined ∧
      RegistryGrows "undefined" w.global._symkeys
        (encrypt S y .undefined w).2.global._symkeys ∧
      encrypt S (.str "undefined") y w =
        ((encrypt S y .undefined w).1,
         (encrypt S y .undefined w).2.setPad (.str "undefined"))) ∧
    (S.Lawful → IdentityOk S w.global →
      (Absent w.global "undefined" ∨ SelfWrapped S w.global "undefined") →
      ∀ m : String, ∃ c raw nb,
        (encrypt S (.str m) .undefined w).1 = .ok (.str c) ∧
        (encrypt S (.str "undefined") (.str m) w).1 = .ok (.str c) ∧
        SelfWrappedWith S (encrypt S (.str m) .undefined w).2.global "undefined" raw nb ∧
        (decrypt S (.str "undefined") (.str c) (encrypt S (.str m) .undefined w).2).1
          = .ok (.str m) ∧
        (decrypt S (.str c) .undefined (encrypt S (.str "undefined") (.str m) w).2).1
          = .ok (.str m)) := by
  constructor
  · intro y hy
    have hl := lazyInit_encrypt S y .undefined w
    have hres' : resolve (effectiveId y .undefined) w.global = .undefined := by
      simp only [effectiveId, if_true, resolve_null, hp]
    rw [hres'] at hl
    exact ⟨hl.2.2, hl.2.1, encrypt_undefined_slot S w hp y hy⟩
  · intro hS hid h m
    have hnull : resolve .null w.global = .undefined := by rw [resolve_null, hp]
    have hm : Val.str m ≠ .undefined := by simp
    obtain ⟨raw, nb, c, hc, hC, hsw, hpad⟩ := encrypt_establishes S hS .null m w hid
      (by rw [hnull]; exact h)
    rw [hnull] at hsw hpad
    rw [← encrypt_one_argument S _ hm] at hC hsw hpad
    have hexp := encrypt_undefined_slot S w hp (.str m) hm
    refine ⟨S.to_base64 c, raw, nb, hC, ?_, hsw, ?_, ?_⟩
    · rw [hexp]; exact hC
    · rw [decrypt_of_selfWrapped S hS (.str "undefined") m _ raw nb c hsw hc]
    · rw [decrypt_one_argument S _ (by simp), hexp]
      have hsw' : SelfWrappedWith S
          ((encrypt S (.str m) .undefined w).2.setPad (.str "undefined")).global
          (toPropertyKey (resolve .null
            ((encrypt S (.str m) .undefined w).2.setPad (.str "undefined")).global))
          raw nb := hsw.congr S rfl rfl
      rw [decrypt_of_selfWrapped S hS .null m _ raw nb c hsw' hc]

theorem undefined_slot_fallthrough_witness :
    (World.fresh 0).global._pad = .undefined ∧
    ((encrypt toySodium (.str "hello") .undefined (World.fresh 0)).2.global._pad = .undefined ∧
      RegistryGrows "undefined" (World.fresh 0).global._symkeys
        (encrypt toySodium (.str "hello") .undefined (World.fresh 0)).2.global._symkeys ∧
      encrypt toySodium (.str "undefined") (.str "hello") (World.fresh 0) =
        ((encrypt toySodium (.str "hello") .undefined (World.fresh 0)).1,
         (encrypt toySodium (.str "hello") .undefined (World.fresh 0)).2.setPad
           (.str "undefined"))) ∧
    Absent (World.fresh 0).global "undefined" ∧
    ∃ c raw nb,
      (encrypt toySodium (.str "hello") .undefined (World.fresh 0)).1 = .ok (.str c) ∧
      (encrypt toySodium (.str "undefined") (.str "hello") (World.fresh 0)).1
        = .ok (.str c) ∧
      SelfWrappedWith toySodium
        (encrypt toySodium (.str "hello") .undefined (World.fresh 0)).2.global
        "undefined" raw nb ∧
      (decrypt toySodium (.str "undefined") (.str c)
        (encrypt toySodium (.str "hello") .undefined (World.fresh 0)).2).1
        = .ok (.str "hello") ∧
      (decrypt toySodium (.str c) .undefined
        (encrypt toySodium (.str "undefined") (.str "hello") (World.fresh 0)).2).1
        = .ok (.str "hello") :=
  ⟨rfl,
    (undefined_slot_fallthrough toySodium (World.fresh 0) rfl).1 (.str "hello") (by decide),
    by decide,
    (undefined_slot_fallthrough toySodium (World.fresh 0) rfl).2 toySodium_lawful
      (IdentityOk.fresh toySodium 0) (Or.inl (by decide)) "hello"⟩

end Secpad
